import Mathlib

/-! The dispatch engine of `reader.go`.

A shallow embedding of `configParser.Process` and `configParser.ProcessLine`.

* Go strings are `String`; a `nil` slice is `none`, a non-nil one `some l`.
* A `*Parsers` pointer is an index into `configParser.heap`; `nil` is `none`.
* A non-nil `ParserInterface` value is a `ParserId`; a map lookup that misses
  yields `none`, which is also how a nil interface value in the candidate
  slice is represented.
* The concrete directive parsers, the section templates, `Init` and the
  tokenizer live outside `reader.go`; they are the fields of `Collaborators`.
  Directive parsers are stateful, so the outcome of a hook is a function of
  all hook invocations made before it (`configParser.calls`).
* A Go run-time panic is `Except.error`.
-/

namespace ConfigParser

set_option linter.dupNamespace false

/-- Identity of a directive-parser instance (a non-nil `ParserInterface`). -/
abbrev ParserId := Nat

/-- Identity of a section instance (a non-nil `*Parsers`). -/
abbrev Ref := Nat

/-- Run-time failures of the Go code. -/
inductive Panic where
  | nilDereference
  | indexOutOfRange
  | typeAssertion
  | sliceBoundsOutOfRange
  deriving DecidableEq, Repr

/-- The constants of type `Section` that key the aggregate `p.Parsers`. Their
string values are declared outside `reader.go`; only their distinctness is used. -/
inductive Section where
  | Comments | Defaults | Global | Frontends | Backends | Listen | Resolvers
  | UserList | Peers | Mailers | Cache | Program | HTTPErrors | Ring
  deriving DecidableEq, Repr

/-- The struct behind `*Parsers`: one section instance. -/
structure Parsers where
  /-- Field `Parsers map[string]ParserInterface`. -/
  Parsers : String → Option ParserId
  /-- Field `ParserSequence []Section`. -/
  ParserSequence : List String
  PreComments : Option (List String)
  PostComments : Option (List String)

/-- The parse cursor, passed to and returned from `ProcessLine` by value. -/
structure ConfiguredParsers where
  State : String
  ActiveComments : Option (List String)
  ActiveSectionComments : Option (List String)
  Active : Option Ref
  Previous : Option Ref
  HasDefaultParser : Bool
  Comments : Option Ref
  Defaults : Option Ref
  Global : Option Ref
  Frontend : Option Ref
  Backend : Option Ref
  Listen : Option Ref
  Resolver : Option Ref
  Userlist : Option Ref
  Peers : Option Ref
  Mailers : Option Ref
  Cache : Option Ref
  Program : Option Ref
  HTTPErrors : Option Ref
  Ring : Option Ref

/-- The arguments of one `PreParse` invocation, with the receiver. -/
structure Call where
  parser : ParserId
  line : String
  parts : List String
  previousParts : List String
  preComments : Option (List String)
  comment : String
  deriving DecidableEq, Repr

/-- The receiver `p` of `Process`/`ProcessLine`, together with the memory its
pointers refer to and the record of the hook invocations made so far. -/
structure configParser where
  /-- Option `p.Options.DisableUnProcessed`. -/
  DisableUnProcessed : Bool
  /-- The section instances allocated so far; `Ref` indexes this list. -/
  heap : List Parsers
  /-- The `PreParse` invocations made so far, oldest first. -/
  calls : List Call
  /-- The aggregate `p.Parsers[kind][name]`. -/
  Parsers : Section → String → Option Ref

/-- Read through a `*Parsers` pointer. A reference outside the heap cannot
arise in Go and is treated like `nil`. -/
def configParser.deref (p : configParser) : Option Ref → Except Panic ConfigParser.Parsers
  | none => .error .nilDereference
  | some r =>
    match p.heap[r]? with
    | some s => .ok s
    | none => .error .nilDereference

/-- Write a field through a `*Parsers` pointer. -/
def configParser.assign (p : configParser) (f : ConfigParser.Parsers → ConfigParser.Parsers) :
    Option Ref → Except Panic configParser
  | none => .error .nilDereference
  | some r =>
    match p.heap[r]? with
    | some s => .ok { p with heap := p.heap.set r (f s) }
    | none => .error .nilDereference

/-- Go `strings.Join(elems, sep)`. -/
def Join (elems : List String) (sep : String) : String :=
  sep.intercalate elems

/-- The two keyword loops of `ProcessLine` (lines 133-138 with `lo = 0`, `i = 1`;
lines 145-150 with `lo = 1`, `i = 2`): `i` counts upward for `n` more
iterations while `!config.HasDefaultParser`, the key tried is
`strings.Join(parts[lo:i], " ")`, and the first hit ends the loop. -/
def matchKeyword (p : configParser) (config : ConfiguredParsers) (parts : List String)
    (lo : Nat) : Nat → Nat → Except Panic (Option ParserId)
  | _, 0 => pure none
  | i, n + 1 =>
    if config.HasDefaultParser then pure none
    else do
      let a ← p.deref config.Active
      match a.Parsers (Join ((parts.take i).drop lo) " ") with
      | some parserFound => pure (some parserFound)
      | none => matchKeyword p config parts lo (i + 1) n

/-- Lines 123-138 of `ProcessLine`: the candidate slice `parsers` after the
catch-all lookup, the default-parser lookup and the first keyword loop. -/
def keywordCandidates (p : configParser) (parts : List String) (config : ConfiguredParsers) :
    Except Panic (List (Option ParserId)) := do
  let parsers : List (Option ParserId) := []
  let parsers ←
    if p.DisableUnProcessed then pure parsers
    else do
      let a ← p.deref config.Active
      pure (parsers ++ [a.Parsers ""])
  let parsers ←
    if config.HasDefaultParser then do
      let a ← p.deref config.Active
      match a.ParserSequence with
      | [] => throw Panic.indexOutOfRange
      | k :: _ => pure (parsers ++ [a.Parsers k])
    else pure parsers
  match ← matchKeyword p config parts 0 1 parts.length with
  | some parserFound => pure (parsers ++ [some parserFound])
  | none => pure parsers

/-- Lines 139-143 of `ProcessLine`: the comment-line parser `"#"`. -/
def commentCandidate (p : configParser) (parts : List String) (config : ConfiguredParsers)
    (parsers : List (Option ParserId)) : Except Panic (List (Option ParserId)) :=
  if parsers.length < 2 ∧ parts.length = 1 ∧ parts.head? = some "" then do
    let a ← p.deref config.Active
    match a.Parsers "#" with
    | some parserFound => pure (parsers ++ [some parserFound])
    | none => pure parsers
  else pure parsers

/-- Lines 144-151 of `ProcessLine`: the retry after a leading `no`. -/
def negationCandidate (p : configParser) (parts : List String) (config : ConfiguredParsers)
    (parsers : List (Option ParserId)) : Except Panic (List (Option ParserId)) :=
  if parsers.length < 2 ∧ 0 < parts.length ∧ parts.head? = some "no" then do
    match ← matchKeyword p config parts 1 2 (parts.length - 1) with
    | some parserFound => pure (parsers ++ [some parserFound])
    | none => pure parsers
  else pure parsers

/-- Lines 123-151 of `ProcessLine`: the candidate slice `parsers`, in the order
the candidates are appended. -/
def candidates (p : configParser) (parts : List String) (config : ConfiguredParsers) :
    Except Panic (List (Option ParserId)) := do
  let parsers ← keywordCandidates p parts config
  let parsers ← commentCandidate p parts config parsers
  negationCandidate p parts config parsers

/-- Everything `reader.go` uses but does not define: the tokenizer of package
`common`, the directive-parser catalog (its `PreParse` hooks and the section
name a `*extra.Section` exposes through `Get`), the per-kind section
constructors, `Init`, and three name constants. -/
structure Collaborators where
  /-- Function `common.StringSplitWithCommentIgnoreEmpty`: fields and comment. -/
  StringSplitWithCommentIgnoreEmpty : String → List String × String
  /-- Outcome of `parser.PreParse(...)` after the given earlier invocations:
  `.ok newState` when `err == nil`. -/
  PreParse : List Call → Call → Except String String
  /-- Value of `parser.(*extra.Section).Get(false).(*types.Section).Name` after the
  given invocations; `none` when one of the two type assertions fails. -/
  Get : List Call → ParserId → Option String
  getFrontendParser : configParser → Parsers
  getBackendParser : configParser → Parsers
  getListenParser : configParser → Parsers
  getResolverParser : configParser → Parsers
  getUserlistParser : configParser → Parsers
  getPeersParser : configParser → Parsers
  getMailersParser : configParser → Parsers
  getCacheParser : configParser → Parsers
  getProgramParser : configParser → Parsers
  getHTTPErrorsParser : configParser → Parsers
  getRingParser : configParser → Parsers
  Init : configParser → configParser
  CommentsSectionName : String
  DefaultSectionName : String
  GlobalSectionName : String

/-- Go `append(s, x)` on a possibly nil slice. -/
def appendOne : Option (List String) → String → Option (List String)
  | none, x => some [x]
  | some l, x => some (l ++ [x])

/-- Go `append(s, xs...)` on a possibly nil slice: appending nothing to `nil`
leaves `nil`. -/
def appendAll : Option (List String) → List String → Option (List String)
  | none, [] => none
  | none, x :: xs => some (x :: xs)
  | some l, xs => some (l ++ xs)

/-- Allocation of a new section instance: the pointer returned by a `get...Parser`
constructor or by `&Parsers{...}`. -/
def configParser.alloc (p : configParser) (s : ConfigParser.Parsers) : Ref × configParser :=
  (p.heap.length, { p with heap := p.heap ++ [s] })

/-- The assignment `p.Parsers[kind][name] = v`. The inner maps are created by
`Init`, outside `reader.go`, and are taken to exist. -/
def configParser.store (p : configParser) (kind : Section) (name : String) (v : Option Ref) :
    configParser :=
  { p with Parsers := fun k n => if k = kind ∧ n = name then v else p.Parsers k n }

/-- The three statements shared by the eleven named-section cases of the switch
in `ProcessLine`: the two type assertions and the read of `data.Name`. -/
def sectionName (c : Collaborators) (p : configParser) (parser : ParserId) :
    Except Panic String :=
  match c.Get p.calls parser with
  | none => .error .typeAssertion
  | some name => .ok name

/-- The statements the eleven named-section cases of the switch in `ProcessLine`
share, for the aggregate key `kind` and the constructor `getParser` of the case:
read the section name, build a new instance and register it under
`p.Parsers[kind][data.Name]`. The result is the pointer to the new instance. -/
def enterSection (c : Collaborators) (parser : ParserId) (kind : Section)
    (getParser : configParser → Parsers) (p : configParser) :
    Except Panic (Ref × configParser) := do
  let name ← sectionName c p parser
  let (r, p) := p.alloc (getParser p)
  pure (r, p.store kind name (some r))

/-- Lines 163-165 of `ProcessLine`: pending directive-level comments become the
`PostComments` of the outgoing Active section. -/
def attachPostComments (p : configParser) (config : ConfiguredParsers) :
    Except Panic configParser :=
  if config.ActiveComments.isSome then
    p.assign (fun a => { a with PostComments := config.ActiveComments }) config.Active
  else pure p

/-- Lines 167-294 of `ProcessLine`: the switch on `config.State`. -/
def switchActive (c : Collaborators) (parser : ParserId) (p : configParser)
    (config : ConfiguredParsers) : Except Panic (ConfiguredParsers × configParser) :=
  if config.State = "" then
    pure ({ config with Active := config.Comments }, p)
  else if config.State = "defaults" then
    pure ({ config with Active := config.Defaults }, p)
  else if config.State = "global" then
    pure ({ config with Active := config.Global }, p)
  else if config.State = "frontend" then do
    let (r, p) ← enterSection c parser Section.Frontends c.getFrontendParser p
    pure ({ config with Frontend := some r, Active := some r }, p)
  else if config.State = "backend" then do
    let (r, p) ← enterSection c parser Section.Backends c.getBackendParser p
    pure ({ config with Backend := some r, Active := some r }, p)
  else if config.State = "listen" then do
    let (r, p) ← enterSection c parser Section.Listen c.getListenParser p
    pure ({ config with Listen := some r, Active := some r }, p)
  else if config.State = "resolvers" then do
    let (r, p) ← enterSection c parser Section.Resolvers c.getResolverParser p
    pure ({ config with Resolver := some r, Active := some r }, p)
  else if config.State = "userlist" then do
    let (r, p) ← enterSection c parser Section.UserList c.getUserlistParser p
    pure ({ config with Userlist := some r, Active := some r }, p)
  else if config.State = "peers" then do
    let (r, p) ← enterSection c parser Section.Peers c.getPeersParser p
    pure ({ config with Peers := some r, Active := some r }, p)
  else if config.State = "mailers" then do
    let (r, p) ← enterSection c parser Section.Mailers c.getMailersParser p
    pure ({ config with Mailers := some r, Active := some r }, p)
  else if config.State = "cache" then do
    let (r, p) ← enterSection c parser Section.Cache c.getCacheParser p
    pure ({ config with Cache := some r, Active := some r }, p)
  else if config.State = "program" then do
    let (r, p) ← enterSection c parser Section.Program c.getProgramParser p
    pure ({ config with Program := some r, Active := some r }, p)
  else if config.State = "http-errors" then do
    let (r, p) ← enterSection c parser Section.HTTPErrors c.getHTTPErrorsParser p
    pure ({ config with HTTPErrors := some r, Active := some r }, p)
  else if config.State = "ring" then do
    let (r, p) ← enterSection c parser Section.Ring c.getRingParser p
    pure ({ config with Ring := some r, Active := some r }, p)
  else if config.State = "snippet_beg" then
    let (r, p) := p.alloc
      { Parsers := fun k => if k = "config-snippet" then some parser else none
        ParserSequence := ["config-snippet"]
        PreComments := none
        PostComments := none }
    pure ({ config with Previous := config.Active, Active := some r,
                        HasDefaultParser := true }, p)
  else if config.State = "snippet_end" then
    pure ({ config with Active := config.Previous, HasDefaultParser := false }, p)
  else pure (config, p)

/-- Lines 295-298 of `ProcessLine`: pending section-level comments become the
`PreComments` of the incoming Active section and the queue is cleared. -/
def attachPreComments (p : configParser) (config : ConfiguredParsers) :
    Except Panic (ConfiguredParsers × configParser) :=
  if config.ActiveSectionComments.isSome then do
    let p ← p.assign (fun a => { a with PreComments := config.ActiveSectionComments })
      config.Active
    pure ({ config with ActiveSectionComments := none }, p)
  else pure (config, p)

/-- Lines 163-298 of `ProcessLine`: the work done when the committed hook
reported the non-empty state `newState`. -/
def changeState (c : Collaborators) (parser : ParserId) (newState : String)
    (p : configParser) (config : ConfiguredParsers) :
    Except Panic (ConfiguredParsers × configParser) := do
  let p ← attachPostComments p config
  let config := { config with State := newState }
  let (config, p) ← switchActive c parser p config
  attachPreComments p config

/-- The parser after the hook invocations `cs` have been made. -/
def configParser.logged (p : configParser) (cs : List Call) : configParser :=
  { p with calls := p.calls ++ cs }

/-- The invocation record of `parser.PreParse(line, parts, previousParts,
config.ActiveComments, comment)`. -/
def mkCall (line : String) (parts previousParts : List String) (comment : String)
    (config : ConfiguredParsers) (parser : ParserId) : Call :=
  { parser := parser, line := line, parts := parts, previousParts := previousParts,
    preComments := config.ActiveComments, comment := comment }

/-- Lines 159-301 of `ProcessLine`: the body run for the candidate `parser`
whose hook returned `newState` without error. -/
def commit (c : Collaborators) (parser : ParserId) (newState : String) (p : configParser)
    (config : ConfiguredParsers) : Except Panic (ConfiguredParsers × configParser) := do
  let (config, p) ←
    if newState ≠ "" then changeState c parser newState p config
    else pure (config, p)
  pure ({ config with ActiveComments := none }, p)

/-- Lines 153-303 of `ProcessLine`: the loop over the candidate slice from its
last element down to its first. The list argument is the slice in the order the
loop visits it. Calling a method on a nil interface value panics. -/
def tryParsers (c : Collaborators) (line : String) (parts previousParts : List String)
    (comment : String) :
    List (Option ParserId) → configParser → ConfiguredParsers →
      Except Panic (ConfiguredParsers × configParser)
  | [], p, config => pure (config, p)
  | none :: _, _, _ => throw Panic.nilDereference
  | some parser :: rest, p, config =>
    let call := mkCall line parts previousParts comment config parser
    let result := c.PreParse p.calls call
    let p := p.logged [call]
    match result with
    | .error _ => tryParsers c line parts previousParts comment rest p config
    | .ok newState => commit c parser newState p config

/-- Lines 123-305 of `ProcessLine`: candidate selection followed by the loop. -/
def dispatch (c : Collaborators) (p : configParser) (line : String)
    (parts previousParts : List String) (comment : String) (config : ConfiguredParsers) :
    Except Panic (ConfiguredParsers × configParser) := do
  let parsers ← candidates p parts config
  tryParsers c line parts previousParts comment parsers.reverse p config

/-- The condition of line 114 of `ProcessLine`, `part0` being `parts[0]`. -/
def queuedComment (part0 comment : String) : Prop :=
  part0 = "" ∧ comment ≠ "" ∧ comment ≠ "##_config-snippet_### BEGIN"
    ∧ comment ≠ "##_config-snippet_### END"

instance (part0 comment : String) : Decidable (queuedComment part0 comment) := by
  unfold queuedComment
  infer_instance

/-- Method `configParser.ProcessLine`. -/
def ProcessLine (c : Collaborators) (p : configParser) (line : String)
    (parts previousParts : List String) (comment : String) (config : ConfiguredParsers) :
    Except Panic (ConfiguredParsers × configParser) :=
  if config.State ≠ "" then
    match parts with
    | [] => throw Panic.indexOutOfRange
    | part0 :: _ =>
      if queuedComment part0 comment then
        match line.data with
        | [] => throw Panic.indexOutOfRange
        | b :: _ =>
          if b = ' ' then
            pure ({ config with ActiveComments := appendOne config.ActiveComments comment }, p)
          else
            pure ({ config with
              ActiveSectionComments := appendOne config.ActiveSectionComments comment }, p)
      else dispatch c p line parts previousParts comment config
  else dispatch c p line parts previousParts comment config

/-- The successive results of `bufferedReader.ReadString('\n')` for which
`err == nil`: the newline-terminated lines, delimiter included. Bytes after the
last newline come back together with `io.EOF`, which ends the loop of `Process`.
`cur` holds the bytes read since the last delimiter. -/
def ReadString (cur : List Char) : List Char → List String
  | [] => []
  | ch :: rest =>
    if ch = '\n' then String.mk (cur ++ [ch]) :: ReadString [] rest
    else ReadString (cur ++ [ch]) rest

/-- Go `strings.Trim(s, cutset)`. -/
def Trim (s : String) (cutset : List Char) : String :=
  String.mk ((s.data.dropWhile (fun ch => decide (ch ∈ cutset))).reverse.dropWhile
    (fun ch => decide (ch ∈ cutset))).reverse

/-- Go `strings.HasPrefix(s, pre)`. -/
def HasPrefix (s pre : String) : Bool :=
  pre.data.isPrefixOf s.data

/-- Whether `substr` occurs somewhere in `s` (both as character lists). -/
def containsChars (substr : List Char) : List Char → Bool
  | [] => substr.isPrefixOf []
  | ch :: rest => substr.isPrefixOf (ch :: rest) || containsChars substr rest

/-- Go `strings.Contains(s, substr)`. -/
def Contains (s substr : String) : Bool :=
  containsChars substr.data s.data

/-- The loop variables of `Process`. -/
structure LoopState where
  parsers : ConfiguredParsers
  previousLine : List String
  p : configParser

/-- One iteration of the loop of `Process` (lines 69-97) on a line `raw` that
`ReadString` returned without error. -/
def processRaw (c : Collaborators) (st : LoopState) (raw : String) : Except Panic LoopState :=
  let line := Trim raw ['\n']
  if line = "" then
    if st.parsers.State = "" then pure { st with parsers := { st.parsers with State := "#" } }
    else pure st
  else
    let (parts, comment) := c.StringSplitWithCommentIgnoreEmpty line
    let parts :=
      if parts.length = 0 ∧ comment ≠ "" then
        if HasPrefix line "# _version" then ["# _version"]
        else if Contains line "config-snippet" then ["config-snippet"]
        else if HasPrefix line "# _md5hash" then ["# _md5hash"]
        else [""]
      else parts
    if parts.length = 0 then pure st
    else do
      let (parsers, p) ← ProcessLine c st.p line parts st.previousLine comment st.parsers
      pure { parsers := parsers, previousLine := parts, p := p }

/-- The loop of `Process` over the lines read. -/
def processLines (c : Collaborators) : LoopState → List String → Except Panic LoopState
  | st, [] => pure st
  | st, raw :: rest => do
    let st ← processRaw c st raw
    processLines c st rest

/-- The cursor `Process` starts from (lines 46-53). -/
def initialCursor (c : Collaborators) (p : configParser) : ConfiguredParsers :=
  { State := ""
    ActiveComments := none
    ActiveSectionComments := none
    Active := p.Parsers Section.Comments c.CommentsSectionName
    Previous := none
    HasDefaultParser := false
    Comments := p.Parsers Section.Comments c.CommentsSectionName
    Defaults := p.Parsers Section.Defaults c.DefaultSectionName
    Global := p.Parsers Section.Global c.GlobalSectionName
    Frontend := none, Backend := none, Listen := none, Resolver := none, Userlist := none
    Peers := none, Mailers := none, Cache := none, Program := none, HTTPErrors := none
    Ring := none }

/-- Lines 99-104 of `Process`: the pending comments go to the last Active section. -/
def flushComments (parsers : ConfiguredParsers) (p : configParser) : Except Panic configParser := do
  let p ←
    if parsers.ActiveComments.isSome then
      p.assign (fun a => { a with PostComments := parsers.ActiveComments }) parsers.Active
    else pure p
  match parsers.ActiveSectionComments with
  | some sectionComments =>
    p.assign (fun a => { a with PostComments := appendAll a.PostComments sectionComments })
      parsers.Active
  | none => pure p

/-- Method `configParser.Process` on the bytes of `reader`; the result is the
final cursor and the final `p` (the Go function itself returns a nil error). -/
def Process (c : Collaborators) (p : configParser) (reader : String) :
    Except Panic (ConfiguredParsers × configParser) := do
  let p := c.Init p
  let st ← processLines c { parsers := initialCursor c p, previousLine := [], p := p }
    (ReadString [] reader.data)
  let p ← flushComments st.parsers st.p
  pure (st.parsers, p)

/-! ## A small catalog on which the engine can be evaluated -/

/-- Modelled from the spec: the tokenizer `common.StringSplitWithCommentIgnoreEmpty`
is not part of `reader.go`. Fields are split on runs of spaces and tabs; the
comment is the text after the first `#`, leading spaces trimmed. Quoting and
escaping are left out. `cur` is the field being read, `acc` the fields read. -/
def splitFields (cur : List Char) (acc : List String) : List Char → List String × String
  | [] => (if cur = [] then acc else acc ++ [String.mk cur], "")
  | ch :: rest =>
    if ch = '#' then
      (if cur = [] then acc else acc ++ [String.mk cur],
        String.mk (rest.dropWhile (fun x => x == ' ')))
    else if ch = ' ' ∨ ch = '\t' then
      splitFields [] (if cur = [] then acc else acc ++ [String.mk cur]) rest
    else splitFields (cur ++ [ch]) acc rest

/-- A registry with a few keywords; `catchAll` says whether `""` is a key. -/
def demoRegistry (catchAll : Bool) (key : String) : Option ParserId :=
  if key = "" then (if catchAll then some 0 else none)
  else if key = "global" then some 2
  else if key = "frontend" then some 3
  else if key = "backend" then some 4
  else if key = "bind" then some 5
  else if key = "mode" then some 6
  else if key = "config-snippet" then some 7
  else if key = "bind name" then some 8
  else if key = "option httplog" then some 9
  else none

/-- A section instance carrying `demoRegistry`. -/
def demoSection (catchAll : Bool) : Parsers :=
  { Parsers := demoRegistry catchAll, ParserSequence := [], PreComments := none,
    PostComments := none }

/-- Hooks of the demo parsers: `0` accepts every line, `2`-`4` are section
boundaries, `5`, `6`, `8`, `9` are directives with a minimum arity, `7` is the
raw-snippet parser, which rejects a line whose first token is `}`. -/
def demoPreParse (_ : List Call) (call : Call) : Except String String :=
  if call.parser = 0 then .ok ""
  else if call.parser = 2 then
    (if call.parts = ["global"] then .ok "global" else .error "invalid data")
  else if call.parser = 3 then
    (if call.parts.head? = some "frontend" ∧ call.parts.length = 2 then .ok "frontend"
     else .error "invalid data")
  else if call.parser = 4 then
    (if call.parts.head? = some "backend" ∧ call.parts.length = 2 then .ok "backend"
     else .error "invalid data")
  else if call.parser = 7 then
    (if call.comment = "##_config-snippet_### BEGIN" then .ok "snippet_beg"
     else if call.comment = "##_config-snippet_### END" then .ok "snippet_end"
     else if call.parts.head? = some "\x7d" then .error "invalid data"
     else .ok "")
  else if 2 ≤ call.parts.length then .ok ""
  else .error "not enough params"

/-- Section name exposed by the demo section parsers `3` and `4`: the second
token of the last line they were invoked on. -/
def demoGet (calls : List Call) (parser : ParserId) : Option String :=
  if parser = 3 ∨ parser = 4 then
    match calls.reverse.find? (fun call => call.parser == parser) with
    | some call => call.parts[1]?
    | none => none
  else none

/-- The demo collaborators. `Init` installs the comments, defaults and global
singletons at references `0`, `1`, `2`. -/
def demo : Collaborators :=
  { StringSplitWithCommentIgnoreEmpty := fun line => splitFields [] [] line.data
    PreParse := demoPreParse
    Get := demoGet
    getFrontendParser := fun p => demoSection (!p.DisableUnProcessed)
    getBackendParser := fun p => demoSection (!p.DisableUnProcessed)
    getListenParser := fun p => demoSection (!p.DisableUnProcessed)
    getResolverParser := fun p => demoSection (!p.DisableUnProcessed)
    getUserlistParser := fun p => demoSection (!p.DisableUnProcessed)
    getPeersParser := fun p => demoSection (!p.DisableUnProcessed)
    getMailersParser := fun p => demoSection (!p.DisableUnProcessed)
    getCacheParser := fun p => demoSection (!p.DisableUnProcessed)
    getProgramParser := fun p => demoSection (!p.DisableUnProcessed)
    getHTTPErrorsParser := fun p => demoSection (!p.DisableUnProcessed)
    getRingParser := fun p => demoSection (!p.DisableUnProcessed)
    Init := fun p =>
      { DisableUnProcessed := p.DisableUnProcessed
        heap := [demoSection (!p.DisableUnProcessed), demoSection (!p.DisableUnProcessed),
          demoSection (!p.DisableUnProcessed)]
        calls := []
        Parsers := fun k n =>
          if n = "data" then
            (if k = Section.Comments then some 0
             else if k = Section.Defaults then some 1
             else if k = Section.Global then some 2
             else none)
          else none }
    CommentsSectionName := "data"
    DefaultSectionName := "data"
    GlobalSectionName := "data" }

/-- A parser value before `Init`, with the given option setting. -/
def demoParser (disableUnProcessed : Bool) : configParser :=
  { DisableUnProcessed := disableUnProcessed, heap := [], calls := [],
    Parsers := fun _ _ => none }

/-- What is compared after a run: the cursor fields, the hook invocations as
(parser, line) pairs, and the comments attached to each section instance. -/
def observe (r : Except Panic (ConfiguredParsers × configParser)) :
    Except Panic (String × Option (List String) × Option (List String) × Option Ref
      × Bool × List (ParserId × String)
      × List (Option (List String) × Option (List String))) :=
  match r with
  | .error e => .error e
  | .ok (config, p) =>
    .ok (config.State, config.ActiveComments, config.ActiveSectionComments, config.Active,
      config.HasDefaultParser, p.calls.map (fun call => (call.parser, call.line)),
      p.heap.map (fun a => (a.PreComments, a.PostComments)))

/-- The demo parser after `Init`. -/
def demoP (disableUnProcessed : Bool) : configParser :=
  demo.Init (demoParser disableUnProcessed)

/-- The cursor `Process` starts from on the demo parser. -/
def demoCursor (disableUnProcessed : Bool) : ConfiguredParsers :=
  initialCursor demo (demoP disableUnProcessed)

/-- A cursor with a forced default parser on an ordinary registry: the Active
section is the instance at reference `0` of `demoForcedP`. -/
def demoForcedCursor : ConfiguredParsers :=
  { demoCursor false with State := "snippet_beg", HasDefaultParser := true }

/-- A parser whose section `0` names `config-snippet` as its default parser and
has a catch-all entry. -/
def demoForcedP : configParser :=
  { demoP false with
    heap := [{ demoSection true with ParserSequence := ["config-snippet"] }] }

/-- A registry in which both `no log` and `log` are keys. -/
def negRegistry (catchAll : Bool) (key : String) : Option ParserId :=
  if key = "" then (if catchAll then some 0 else none)
  else if key = "no log" then some 10
  else if key = "log" then some 11
  else none

/-- A parser whose only section instance carries `negRegistry`. -/
def negP (disableUnProcessed : Bool) : configParser :=
  { DisableUnProcessed := disableUnProcessed
    heap := [{ Parsers := negRegistry (!disableUnProcessed), ParserSequence := [],
               PreComments := none, PostComments := none }]
    calls := []
    Parsers := fun _ _ => none }

/-- A cursor whose Active section is the instance of `negP`. -/
def negCursor : ConfiguredParsers :=
  { demoCursor false with State := "defaults", Active := some 0 }

/-- The eleven named-section cases of the switch in `ProcessLine`: the state
string, the aggregate key and the constructor of each case. -/
def namedSections (c : Collaborators) : List (String × Section × (configParser → Parsers)) :=
  [("frontend", Section.Frontends, c.getFrontendParser),
   ("backend", Section.Backends, c.getBackendParser),
   ("listen", Section.Listen, c.getListenParser),
   ("resolvers", Section.Resolvers, c.getResolverParser),
   ("userlist", Section.UserList, c.getUserlistParser),
   ("peers", Section.Peers, c.getPeersParser),
   ("mailers", Section.Mailers, c.getMailersParser),
   ("cache", Section.Cache, c.getCacheParser),
   ("program", Section.Program, c.getProgramParser),
   ("http-errors", Section.HTTPErrors, c.getHTTPErrorsParser),
   ("ring", Section.Ring, c.getRingParser)]

/-- The line commits a section change: `ProcessLine` ends in the commit step of
a candidate `f` whose hook, invoked after the hooks of `failed` had failed,
reported a non-empty state. -/
def commitsSectionChange (c : Collaborators) (p : configParser) (line : String)
    (parts previousParts : List String) (comment : String) (config : ConfiguredParsers) :
    Prop :=
  ∃ (failed : List ParserId) (f : ParserId) (s : String), s ≠ "" ∧
    c.PreParse (p.calls ++ failed.map (mkCall line parts previousParts comment config))
      (mkCall line parts previousParts comment config f) = .ok s ∧
    ProcessLine c p line parts previousParts comment config
      = commit c f s
          (p.logged (failed.map (mkCall line parts previousParts comment config)
            ++ [mkCall line parts previousParts comment config f])) config

/-- Cursor and parser reached from `x` by successive calls of `ProcessLine`, on
any lines, none of which commits a section change. -/
inductive QuietSteps (c : Collaborators) :
    ConfiguredParsers × configParser → ConfiguredParsers × configParser → Prop where
  | refl (x : ConfiguredParsers × configParser) : QuietSteps c x x
  | step {x : ConfiguredParsers × configParser} {config config' : ConfiguredParsers}
      {p p' : configParser} (line : String) (parts previousParts : List String)
      (comment : String) :
      QuietSteps c x (config, p) →
      ProcessLine c p line parts previousParts comment config = .ok (config', p') →
      ¬ commitsSectionChange c p line parts previousParts comment config →
      QuietSteps c x (config', p')

/-- The demo cursor inside the `global` section. -/
def demoGlobalCursor : ConfiguredParsers :=
  { demoCursor false with State := "global", Active := some 2 }

/-- The demo cursor inside the `global` section with a comment pending in each
queue. -/
def demoPendingCursor : ConfiguredParsers :=
  { demoGlobalCursor with ActiveComments := some ["a"], ActiveSectionComments := some ["b"] }

/-- The demo parser after the hook of the section parser `4` has accepted the
line `backend b`. -/
def demoBackendP : configParser :=
  (demoP false).logged [mkCall "backend b" ["backend", "b"] [] "" (demoCursor false) 4]

/-- The demo parser after the hook of the section parser `3` has accepted the
line `frontend foo`. -/
def demoFrontendP : configParser :=
  (demoP false).logged [mkCall "frontend foo" ["frontend", "foo"] [] "" (demoCursor false) 3]

/-- The value of a run that did not fail. -/
def okValue (r : Except Panic (ConfiguredParsers × configParser))
    (dflt : ConfiguredParsers × configParser) : ConfiguredParsers × configParser :=
  match r with
  | .ok v => v
  | .error _ => dflt

/-- The loop state of a run of the loop that did not fail. -/
def okLoop (r : Except Panic LoopState) : LoopState :=
  match r with
  | .ok st => st
  | .error _ =>
    { parsers := demoCursor false, previousLine := [], p := demoParser false }

/-- The hook invocations of a run as (parser, tokens) pairs. -/
def observeParts (r : Except Panic (ConfiguredParsers × configParser)) :
    Except Panic (List (ParserId × List String)) :=
  match r with
  | .error e => .error e
  | .ok (_, p) => .ok (p.calls.map (fun call => (call.parser, call.parts)))

/-! ## The action parsers of `parsers/` -/

/-- Modelled from the spec: `common.SplitRequest` is not among the sources. The
condition clause starts at the first condition keyword (`if` or `unless`); the
tokens before it are the command, the keyword and what follows the condition. -/
def SplitRequest : List String → List String × List String
  | [] => ([], [])
  | x :: xs =>
    if x = "if" ∨ x = "unless" then ([], x :: xs)
    else (x :: (SplitRequest xs).1, (SplitRequest xs).2)

/-- The type `types.ParserType`; `HTTP` and `TCP` are the two constants the
sources name, `other` stands for any further value. -/
inductive ParserType where
  | HTTP
  | TCP
  | other
  deriving DecidableEq, Repr

/-- A non-nil Go `error` returned by a `Parse` method; `none` is the nil error. -/
inductive GoError where
  | ErrInvalidData
  | Errorf (message : String)
  deriving DecidableEq, Repr

/-- Struct `ReplaceValue` of `parsers/http/actions/replace-value.go`. -/
structure ReplaceValue where
  Name : String
  MatchRegex : String
  ReplaceFmt : String
  Cond : String
  CondTest : String
  Comment : String
  deriving DecidableEq, Repr

/-- Method `ReplaceValue.Parse`: the receiver after the call and the error
returned. The indices read are in range by the length tests before them. -/
def ReplaceValue.Parse (f : ReplaceValue) (parts : List String) (_ : ParserType)
    (comment : String) : ReplaceValue × Option GoError :=
  let f := if comment ≠ "" then { f with Comment := comment } else f
  if parts.length ≥ 5 then
    let (command, condition) := SplitRequest (parts.drop 2)
    if command.length < 3 then (f, some GoError.ErrInvalidData)
    else
      let f := { f with Name := command.getD 0 "", MatchRegex := command.getD 1 "",
                        ReplaceFmt := command.getD 2 "" }
      let f :=
        if condition.length > 1 then
          { f with Cond := condition.getD 0 "", CondTest := Join (condition.drop 1) " " }
        else f
      (f, none)
  else (f, some GoError.ErrInvalidData)

/-- Method `ReplaceValue.GetComment`. -/
def ReplaceValue.GetComment (f : ReplaceValue) : String :=
  f.Comment

/-- Method `ReplaceValue.String`; `fmt.Sprintf` with `%s` verbs is concatenation. -/
def ReplaceValue.String (f : ReplaceValue) : String :=
  let condition := if f.Cond ≠ "" then " " ++ f.Cond ++ " " ++ f.CondTest else ""
  "replace-value " ++ f.Name ++ " " ++ f.MatchRegex ++ " " ++ f.ReplaceFmt ++ condition

/-- A `ReplaceValue` as Go allocates it: every field the empty string. -/
def freshReplaceValue : ReplaceValue :=
  { Name := "", MatchRegex := "", ReplaceFmt := "", Cond := "", CondTest := "", Comment := "" }

/-- Struct `ExpectProxy` of `parsers/tcp/actions/expect-proxy.go`. -/
structure ExpectProxy where
  Cond : String
  CondTest : String
  Comment : String
  deriving DecidableEq, Repr

/-- Method `ExpectProxy.Parse`: the receiver after the call and the error
returned. The slice expression `parts[2:]` panics when `len(parts) < 2`. -/
def ExpectProxy.Parse (f : ExpectProxy) (parts : List String) (_ : ParserType)
    (comment : String) : Except Panic (ExpectProxy × Option GoError) :=
  let f := if f.Comment ≠ "" then { f with Comment := comment } else f
  if parts.length < 2 then throw Panic.sliceBoundsOutOfRange
  else
    let (_, condition) := SplitRequest (parts.drop 2)
    let f :=
      if condition.length > 1 then
        { f with Cond := condition.getD 0 "", CondTest := Join (condition.drop 1) " " }
      else f
    pure (f, none)

/-- Method `ExpectProxy.GetComment`. -/
def ExpectProxy.GetComment (f : ExpectProxy) : String :=
  f.Comment

/-- An `ExpectProxy` as Go allocates it. -/
def freshExpectProxy : ExpectProxy :=
  { Cond := "", CondTest := "", Comment := "" }

/-- Struct `SetDstPort` of `parsers/actions/set-dst-port.go`. The type
`common.Expression` is declared outside the sources and is the parameter
`Expression`. -/
structure SetDstPort (Expression : Type) where
  Expr : Expression
  Cond : String
  CondTest : String
  Comment : String

/-- Method `SetDstPort.Parse`: the receiver after the call and the error
returned. `exprParse` stands for `common.Expression.Parse` on a zero
`Expression`: the parsed expression, or `none` when it returns an error. -/
def SetDstPort.Parse {Expression : Type} (exprParse : List String → Option Expression)
    (f : SetDstPort Expression) (parts : List String) (parserType : ParserType)
    (comment : String) : SetDstPort Expression × Option GoError :=
  let f := if comment ≠ "" then { f with Comment := comment } else f
  if parts.length < 3 then (f, some (GoError.Errorf "not enough params"))
  else
    let command : List String :=
      match parserType with
      | ParserType.HTTP => parts.drop 2
      | ParserType.TCP => parts.drop 3
      | ParserType.other => []
    let (command, condition) := SplitRequest command
    let parsed : Option (SetDstPort Expression) :=
      if command.length > 0 then
        match exprParse command with
        | none => none
        | some expr => some { f with Expr := expr }
      else some f
    match parsed with
    | none => (f, some (GoError.Errorf "not enough params"))
    | some f =>
      let f :=
        if condition.length > 1 then
          { f with Cond := condition.getD 0 "", CondTest := Join (condition.drop 1) " " }
        else f
      (f, none)

/-- A `SetDstPort` as Go allocates it, `zero` being the zero `Expression`. -/
def freshSetDstPort {Expression : Type} (zero : Expression) : SetDstPort Expression :=
  { Expr := zero, Cond := "", CondTest := "", Comment := "" }

/-! ## Candidate selection -/

/-- With a readable Active section and no forced default parser, a keyword loop
returns the entry of the first key that hits, scanning `i, i+1, ..., i+n-1`. -/
theorem matchKeyword_first (p : configParser) (config : ConfiguredParsers)
    (parts : List String) (a : Parsers) (lo : Nat)
    (hActive : p.deref config.Active = .ok a) (hDefault : config.HasDefaultParser = false) :
    ∀ n i, ∃ kw, matchKeyword p config parts lo i n = .ok kw ∧
      (∀ f, kw = some f ↔ ∃ k, i ≤ k ∧ k < i + n ∧
        a.Parsers (Join ((parts.take k).drop lo) " ") = some f ∧
        ∀ j, i ≤ j → j < k → a.Parsers (Join ((parts.take j).drop lo) " ") = none) ∧
      (kw = none ↔ ∀ k, i ≤ k → k < i + n →
        a.Parsers (Join ((parts.take k).drop lo) " ") = none) := by
  intro n
  induction n with
  | zero =>
    intro i
    refine ⟨none, rfl, ?_, ?_⟩
    · intro f
      constructor
      · intro h; cases h
      · rintro ⟨k, h1, h2, _⟩; omega
    · constructor
      · intro _ k h1 h2; omega
      · intro _; rfl
  | succ n ih =>
    intro i
    cases hkey : a.Parsers (Join ((parts.take i).drop lo) " ") with
    | some g =>
      refine ⟨some g, ?_, ?_, ?_⟩
      · simp [matchKeyword, hDefault, hActive, bind, Except.bind, hkey, pure, Except.pure]
      · intro f
        constructor
        · intro h
          cases h
          exact ⟨i, le_refl i, by omega, hkey, fun j h1 h2 => by omega⟩
        · rintro ⟨k, h1, h2, h3, h4⟩
          rcases Nat.eq_or_lt_of_le h1 with h | h
          · subst h
            rw [hkey] at h3
            exact h3
          · have := h4 i (le_refl i) h
            rw [hkey] at this
            cases this
      · constructor
        · intro h; cases h
        · intro h
          have := h i (le_refl i) (by omega)
          rw [hkey] at this
          cases this
    | none =>
      obtain ⟨kw, h1, h2, h3⟩ := ih (i + 1)
      refine ⟨kw, ?_, ?_, ?_⟩
      · simp [matchKeyword, hDefault, hActive, bind, Except.bind, hkey, h1]
      · intro f
        rw [h2 f]
        constructor
        · rintro ⟨k, k1, k2, k3, k4⟩
          refine ⟨k, by omega, by omega, k3, ?_⟩
          intro j j1 j2
          rcases Nat.eq_or_lt_of_le j1 with h | h
          · subst h; exact hkey
          · exact k4 j h j2
        · rintro ⟨k, k1, k2, k3, k4⟩
          rcases Nat.eq_or_lt_of_le k1 with h | h
          · subst h
            rw [hkey] at k3
            cases k3
          · exact ⟨k, h, by omega, k3, fun j j1 j2 => k4 j (by omega) j2⟩
      · rw [h3]
        constructor
        · intro h k k1 k2
          rcases Nat.eq_or_lt_of_le k1 with h' | h'
          · subst h'; exact hkey
          · exact h k h' (by omega)
        · intro h k k1 k2
          exact h k (by omega) (by omega)

/-- While a default parser is forced active the keyword loops find nothing. -/
theorem matchKeyword_default (p : configParser) (config : ConfiguredParsers)
    (parts : List String) (lo i n : Nat) (hDefault : config.HasDefaultParser = true) :
    matchKeyword p config parts lo i n = .ok none := by
  cases n with
  | zero => rfl
  | succ n => simp [matchKeyword, hDefault, pure, Except.pure]

/-- The later stages only append to the slice built by lines 123-138. -/
theorem candidates_extend (p : configParser) (parts : List String)
    (config : ConfiguredParsers) (cs : List (Option ParserId))
    (h : candidates p parts config = .ok cs) :
    ∃ ks rest, keywordCandidates p parts config = .ok ks ∧ cs = ks ++ rest := by
  unfold candidates at h
  cases hk : keywordCandidates p parts config with
  | error e => simp [hk, bind, Except.bind] at h
  | ok ks =>
    simp only [hk, bind, Except.bind] at h
    cases hc : commentCandidate p parts config ks with
    | error e => simp [hc] at h
    | ok cs1 =>
      simp only [hc] at h
      have e1 : ∃ r1, cs1 = ks ++ r1 := by
        unfold commentCandidate at hc
        split at hc
        · cases hd : p.deref config.Active with
          | error e => simp [hd, bind, Except.bind] at hc
          | ok a =>
            simp only [hd, bind, Except.bind] at hc
            split at hc
            · cases hc; exact ⟨_, rfl⟩
            · cases hc; exact ⟨[], by simp⟩
        · cases hc; exact ⟨[], by simp⟩
      have e2 : ∃ r2, cs = cs1 ++ r2 := by
        unfold negationCandidate at h
        split at h
        · cases hm : matchKeyword p config parts 1 2 (parts.length - 1) with
          | error e => simp [hm, bind, Except.bind] at h
          | ok kw =>
            simp only [hm, bind, Except.bind] at h
            split at h
            · cases h; exact ⟨_, rfl⟩
            · cases h; exact ⟨[], by simp⟩
        · cases h; exact ⟨[], by simp⟩
      obtain ⟨r1, rfl⟩ := e1
      obtain ⟨r2, rfl⟩ := e2
      exact ⟨ks, r1 ++ r2, rfl, by simp⟩

/-- With a readable Active section a keyword loop does not fail. -/
theorem matchKeyword_total (p : configParser) (config : ConfiguredParsers)
    (parts : List String) (a : Parsers) (lo i n : Nat)
    (hActive : p.deref config.Active = .ok a) :
    ∃ kw, matchKeyword p config parts lo i n = .ok kw := by
  cases hD : config.HasDefaultParser with
  | true => exact ⟨none, matchKeyword_default p config parts lo i n hD⟩
  | false =>
    obtain ⟨kw, h, _⟩ := matchKeyword_first p config parts a lo hActive hD n i
    exact ⟨kw, h⟩

/-- With a readable Active section lines 139-143 only append to the slice. -/
theorem commentCandidate_total (p : configParser) (config : ConfiguredParsers)
    (parts : List String) (a : Parsers) (ps : List (Option ParserId))
    (hActive : p.deref config.Active = .ok a) :
    ∃ r, commentCandidate p parts config ps = .ok (ps ++ r) := by
  unfold commentCandidate
  by_cases h : ps.length < 2 ∧ parts.length = 1 ∧ parts.head? = some ""
  · rw [if_pos h]
    cases hc : a.Parsers "#" with
    | none => exact ⟨[], by simp [hActive, hc, bind, Except.bind, pure, Except.pure]⟩
    | some f => exact ⟨[some f], by simp [hActive, hc, bind, Except.bind, pure, Except.pure]⟩
  · rw [if_neg h]
    exact ⟨[], by simp [pure, Except.pure]⟩

/-- With a readable Active section lines 144-151 only append to the slice. -/
theorem negationCandidate_total (p : configParser) (config : ConfiguredParsers)
    (parts : List String) (a : Parsers) (ps : List (Option ParserId))
    (hActive : p.deref config.Active = .ok a) :
    ∃ r, negationCandidate p parts config ps = .ok (ps ++ r) := by
  unfold negationCandidate
  by_cases h : ps.length < 2 ∧ 0 < parts.length ∧ parts.head? = some "no"
  · rw [if_pos h]
    obtain ⟨kw, hk⟩ := matchKeyword_total p config parts a 1 2 (parts.length - 1) hActive
    cases kw with
    | none => exact ⟨[], by simp [hk, bind, Except.bind, pure, Except.pure]⟩
    | some f => exact ⟨[some f], by simp [hk, bind, Except.bind, pure, Except.pure]⟩
  · rw [if_neg h]
    exact ⟨[], by simp [pure, Except.pure]⟩

/-- The candidate slice while a default parser is forced active: the result of
the catch-all lookup when passthrough is enabled, then the default parser. -/
theorem candidates_forced (p : configParser) (config : ConfiguredParsers)
    (parts : List String) (a : Parsers) (k : String) (tl : List String)
    (hActive : p.deref config.Active = .ok a) (hDefault : config.HasDefaultParser = true)
    (hSeq : a.ParserSequence = k :: tl)
    (hparts : p.DisableUnProcessed = false ∨ parts ≠ [""]) :
    candidates p parts config
      = .ok ((if p.DisableUnProcessed then [] else [a.Parsers ""]) ++ [a.Parsers k]) := by
  have hp1 : (parts.length = 1 ∧ parts.head? = some "") → parts = [""] := by
    rintro ⟨h1, h2⟩
    match parts, h1, h2 with
    | [x], _, h2 => simpa using h2
  have hk : keywordCandidates p parts config
      = .ok ((if p.DisableUnProcessed then [] else [a.Parsers ""]) ++ [a.Parsers k]) := by
    unfold keywordCandidates
    cases hU : p.DisableUnProcessed <;>
      simp [hU, hDefault, hActive, hSeq, matchKeyword_default, bind, Except.bind, pure,
        Except.pure]
  unfold candidates
  simp only [hk, bind, Except.bind]
  unfold commentCandidate negationCandidate
  cases hU : p.DisableUnProcessed
  · simp [matchKeyword_default, hDefault, pure, Except.pure]
  · have hp : parts ≠ [""] := by
      rcases hparts with h | h
      · rw [hU] at h
        cases h
      · exact h
    have hp2 : ¬ (parts.length = 1 ∧ parts.head? = some "") := fun h => hp (hp1 h)
    simp only [List.nil_append, List.length_singleton, Nat.lt_add_one, true_and, hp2,
      if_false, if_true]
    simp [matchKeyword_default, hDefault, bind, Except.bind, pure, Except.pure]

/-- C1: with no default parser forced active, the slice built by lines 123-138
is the catch-all lookup (when passthrough is enabled) followed by the keyword
candidate `kw`, and `kw` is the registry entry of the shortest prefix
`parts[:i]`, `i >= 1`, joined by single spaces, that is a key: longer prefixes
play no part once a shorter one hits, and there is no keyword candidate when no
prefix is a key. The later stages only append to this slice. -/
theorem keyword_candidate_is_shortest_match (p : configParser) (config : ConfiguredParsers)
    (parts : List String) (a : Parsers)
    (hActive : p.deref config.Active = .ok a) (hDefault : config.HasDefaultParser = false) :
    ∃ kw : Option ParserId,
      keywordCandidates p parts config
        = .ok ((if p.DisableUnProcessed then [] else [a.Parsers ""]) ++ kw.toList.map some) ∧
      (∀ f, kw = some f ↔ ∃ i, 1 ≤ i ∧ i ≤ parts.length ∧
        a.Parsers (Join (parts.take i) " ") = some f ∧
        ∀ j, 1 ≤ j → j < i → a.Parsers (Join (parts.take j) " ") = none) ∧
      (kw = none ↔ ∀ i, 1 ≤ i → i ≤ parts.length →
        a.Parsers (Join (parts.take i) " ") = none) ∧
      ∃ rest, candidates p parts config
        = .ok ((if p.DisableUnProcessed then [] else [a.Parsers ""]) ++ kw.toList.map some
            ++ rest) := by
  obtain ⟨kw, h1, h2, h3⟩ := matchKeyword_first p config parts a 0 hActive hDefault parts.length 1
  have hk : keywordCandidates p parts config
      = .ok ((if p.DisableUnProcessed then [] else [a.Parsers ""]) ++ kw.toList.map some) := by
    unfold keywordCandidates
    cases hU : p.DisableUnProcessed <;> cases kw <;>
      simp [hU, hDefault, hActive, h1, bind, Except.bind, pure, Except.pure]
  refine ⟨kw, hk, ?_, ?_, ?_⟩
  · intro f
    rw [h2 f]
    constructor
    · rintro ⟨k, k1, k2, k3, k4⟩
      exact ⟨k, k1, by omega, by simpa using k3, fun j j1 j2 => by simpa using k4 j j1 j2⟩
    · rintro ⟨k, k1, k2, k3, k4⟩
      exact ⟨k, k1, by omega, by simpa using k3, fun j j1 j2 => by simpa using k4 j j1 j2⟩
  · rw [h3]
    constructor
    · intro h i i1 i2
      simpa using h i i1 (by omega)
    · intro h i i1 i2
      simpa using h i i1 (by omega)
  · obtain ⟨r1, e1⟩ := commentCandidate_total p config parts a
      ((if p.DisableUnProcessed then [] else [a.Parsers ""]) ++ kw.toList.map some) hActive
    obtain ⟨r2, e2⟩ := negationCandidate_total p config parts a
      ((if p.DisableUnProcessed then [] else [a.Parsers ""]) ++ kw.toList.map some ++ r1) hActive
    refine ⟨r1 ++ r2, ?_⟩
    unfold candidates
    simp only [hk, e1, bind, Except.bind]
    rw [e2, List.append_assoc]

/-- C1 at a concrete input: on the demo registry, which has both `bind` and
`bind name`, the tokens `bind name x` select the `bind` parser. -/
theorem keyword_candidate_is_shortest_match_witness :
    (demoP false).deref (demoCursor false).Active = .ok (demoSection true) ∧
    (demoCursor false).HasDefaultParser = false ∧
    candidates (demoP false) ["bind", "name", "x"] (demoCursor false) = .ok [some 0, some 5] ∧
    ∃ kw : Option ParserId,
      keywordCandidates (demoP false) ["bind", "name", "x"] (demoCursor false)
        = .ok ((if (demoP false).DisableUnProcessed then [] else [(demoSection true).Parsers ""])
            ++ kw.toList.map some) ∧
      (∀ f, kw = some f ↔ ∃ i, 1 ≤ i ∧ i ≤ ["bind", "name", "x"].length ∧
        (demoSection true).Parsers (Join (["bind", "name", "x"].take i) " ") = some f ∧
        ∀ j, 1 ≤ j → j < i →
          (demoSection true).Parsers (Join (["bind", "name", "x"].take j) " ") = none) ∧
      (kw = none ↔ ∀ i, 1 ≤ i → i ≤ ["bind", "name", "x"].length →
        (demoSection true).Parsers (Join (["bind", "name", "x"].take i) " ") = none) ∧
      ∃ rest, candidates (demoP false) ["bind", "name", "x"] (demoCursor false)
        = .ok ((if (demoP false).DisableUnProcessed then [] else [(demoSection true).Parsers ""])
            ++ kw.toList.map some ++ rest) :=
  ⟨rfl, rfl, rfl,
    keyword_candidate_is_shortest_match (demoP false) (demoCursor false) ["bind", "name", "x"]
      (demoSection true) rfl rfl⟩

/-- C2: the code departs from the claim when passthrough is enabled. In the
cursor `Process` reaches after a raw-snippet begin marker a default parser is
forced active and the Active registry is the synthetic one: its only key is
`config-snippet`, named by `ParserSequence[0]`. With passthrough enabled the
candidate slice for the next line nevertheless has two entries, the first being
the nil result of the unchecked catch-all lookup of line 125; with passthrough
disabled the slice is the default parser alone, as the claim says. -/
theorem snippet_slice_holds_nil_entry :
    (match Process demo (demoParser false) "global\n  ###_config-snippet_### BEGIN\n" with
      | .ok (config, p) =>
        p.DisableUnProcessed = false ∧ config.HasDefaultParser = true ∧
          (match p.deref config.Active with
            | .ok a =>
              a.Parsers "" = none ∧ a.ParserSequence = ["config-snippet"] ∧
                a.Parsers "config-snippet" = some 7
            | .error _ => False) ∧
          candidates p ["frontend", "x"] config = .ok [none, some 7]
      | .error _ => False) ∧
    (match Process demo (demoParser true) "global\n  ###_config-snippet_### BEGIN\n" with
      | .ok (config, p) =>
        p.DisableUnProcessed = true ∧ config.HasDefaultParser = true ∧
          candidates p ["frontend", "x"] config = .ok [some 7]
      | .error _ => False) :=
  ⟨⟨rfl, rfl, ⟨rfl, rfl, rfl⟩, rfl⟩, ⟨rfl, rfl, rfl⟩⟩

/-! ## The loop over the candidates -/

/-- A write through a pointer changes nothing but the heap cell written. -/
theorem assign_frame (p p' : configParser) (f : Parsers → Parsers) (r : Option Ref)
    (h : p.assign f r = .ok p') :
    p'.calls = p.calls ∧ p'.Parsers = p.Parsers ∧
      p'.DisableUnProcessed = p.DisableUnProcessed ∧ p'.heap.length = p.heap.length := by
  cases r with
  | none => simp [configParser.assign] at h
  | some r =>
    unfold configParser.assign at h
    cases hh : p.heap[r]? with
    | none => simp [hh] at h
    | some s =>
      simp only [hh] at h
      cases h
      simp

/-- Entering a named section makes no hook invocation. -/
theorem enterSection_calls (c : Collaborators) (parser : ParserId) (kind : Section)
    (getParser : configParser → Parsers) (p p' : configParser) (r : Ref)
    (h : enterSection c parser kind getParser p = .ok (r, p')) :
    p'.calls = p.calls := by
  unfold enterSection at h
  cases hn : sectionName c p parser with
  | error e => simp [hn, bind, Except.bind] at h
  | ok name =>
    simp only [hn, bind, Except.bind, pure, Except.pure, configParser.alloc,
      configParser.store] at h
    cases h
    rfl

/-- The switch on the new state makes no hook invocation. -/
theorem switchActive_calls (c : Collaborators) (parser : ParserId) (p p' : configParser)
    (config config' : ConfiguredParsers)
    (h : switchActive c parser p config = .ok (config', p')) : p'.calls = p.calls := by
  unfold switchActive at h
  by_cases h0 : config.State = ""
  · rw [if_pos h0] at h
    cases h
    rfl
  rw [if_neg h0] at h
  by_cases h1 : config.State = "defaults"
  · rw [if_pos h1] at h
    cases h
    rfl
  rw [if_neg h1] at h
  by_cases h2 : config.State = "global"
  · rw [if_pos h2] at h
    cases h
    rfl
  rw [if_neg h2] at h
  by_cases h3 : config.State = "frontend"
  · rw [if_pos h3] at h
    simp only [bind, Except.bind] at h
    split at h
    · cases h
    · rename_i x hx
      obtain ⟨r, q⟩ := x
      cases h
      exact enterSection_calls _ _ _ _ _ _ _ hx
  rw [if_neg h3] at h
  by_cases h4 : config.State = "backend"
  · rw [if_pos h4] at h
    simp only [bind, Except.bind] at h
    split at h
    · cases h
    · rename_i x hx
      obtain ⟨r, q⟩ := x
      cases h
      exact enterSection_calls _ _ _ _ _ _ _ hx
  rw [if_neg h4] at h
  by_cases h5 : config.State = "listen"
  · rw [if_pos h5] at h
    simp only [bind, Except.bind] at h
    split at h
    · cases h
    · rename_i x hx
      obtain ⟨r, q⟩ := x
      cases h
      exact enterSection_calls _ _ _ _ _ _ _ hx
  rw [if_neg h5] at h
  by_cases h6 : config.State = "resolvers"
  · rw [if_pos h6] at h
    simp only [bind, Except.bind] at h
    split at h
    · cases h
    · rename_i x hx
      obtain ⟨r, q⟩ := x
      cases h
      exact enterSection_calls _ _ _ _ _ _ _ hx
  rw [if_neg h6] at h
  by_cases h7 : config.State = "userlist"
  · rw [if_pos h7] at h
    simp only [bind, Except.bind] at h
    split at h
    · cases h
    · rename_i x hx
      obtain ⟨r, q⟩ := x
      cases h
      exact enterSection_calls _ _ _ _ _ _ _ hx
  rw [if_neg h7] at h
  by_cases h8 : config.State = "peers"
  · rw [if_pos h8] at h
    simp only [bind, Except.bind] at h
    split at h
    · cases h
    · rename_i x hx
      obtain ⟨r, q⟩ := x
      cases h
      exact enterSection_calls _ _ _ _ _ _ _ hx
  rw [if_neg h8] at h
  by_cases h9 : config.State = "mailers"
  · rw [if_pos h9] at h
    simp only [bind, Except.bind] at h
    split at h
    · cases h
    · rename_i x hx
      obtain ⟨r, q⟩ := x
      cases h
      exact enterSection_calls _ _ _ _ _ _ _ hx
  rw [if_neg h9] at h
  by_cases h10 : config.State = "cache"
  · rw [if_pos h10] at h
    simp only [bind, Except.bind] at h
    split at h
    · cases h
    · rename_i x hx
      obtain ⟨r, q⟩ := x
      cases h
      exact enterSection_calls _ _ _ _ _ _ _ hx
  rw [if_neg h10] at h
  by_cases h11 : config.State = "program"
  · rw [if_pos h11] at h
    simp only [bind, Except.bind] at h
    split at h
    · cases h
    · rename_i x hx
      obtain ⟨r, q⟩ := x
      cases h
      exact enterSection_calls _ _ _ _ _ _ _ hx
  rw [if_neg h11] at h
  by_cases h12 : config.State = "http-errors"
  · rw [if_pos h12] at h
    simp only [bind, Except.bind] at h
    split at h
    · cases h
    · rename_i x hx
      obtain ⟨r, q⟩ := x
      cases h
      exact enterSection_calls _ _ _ _ _ _ _ hx
  rw [if_neg h12] at h
  by_cases h13 : config.State = "ring"
  · rw [if_pos h13] at h
    simp only [bind, Except.bind] at h
    split at h
    · cases h
    · rename_i x hx
      obtain ⟨r, q⟩ := x
      cases h
      exact enterSection_calls _ _ _ _ _ _ _ hx
  rw [if_neg h13] at h
  by_cases h14 : config.State = "snippet_beg"
  · rw [if_pos h14] at h
    cases h
    rfl
  rw [if_neg h14] at h
  by_cases h15 : config.State = "snippet_end"
  · rw [if_pos h15] at h
    cases h
    rfl
  rw [if_neg h15] at h
  cases h
  rfl

/-- A committed state change makes no hook invocation. -/
theorem changeState_calls (c : Collaborators) (parser : ParserId) (newState : String)
    (p p' : configParser) (config config' : ConfiguredParsers)
    (h : changeState c parser newState p config = .ok (config', p')) :
    p'.calls = p.calls := by
  unfold changeState at h
  cases h1 : attachPostComments p config with
  | error e => simp [h1, bind, Except.bind] at h
  | ok p1 =>
    have e1 : p1.calls = p.calls := by
      unfold attachPostComments at h1
      split at h1
      · exact (assign_frame _ _ _ _ h1).1
      · cases h1; rfl
    simp only [h1, bind, Except.bind] at h
    cases h2 : switchActive c parser p1 { config with State := newState } with
    | error e => simp [h2] at h
    | ok r2 =>
      obtain ⟨config2, p2⟩ := r2
      have e2 := switchActive_calls _ _ _ _ _ _ h2
      simp only [h2] at h
      unfold attachPreComments at h
      split at h
      · cases h3 : p2.assign
            (fun a => { a with PreComments := config2.ActiveSectionComments }) config2.Active with
        | error e => simp [h3, bind, Except.bind] at h
        | ok p3 =>
          simp only [h3, bind, Except.bind, pure, Except.pure] at h
          cases h
          rw [(assign_frame _ _ _ _ h3).1, e2, e1]
      · cases h
        rw [e2, e1]

/-- When every hook fails the loop invokes each candidate once, in the order it
visits them, and returns the cursor it was given. -/
theorem tryParsers_all_fail (c : Collaborators) (line : String)
    (parts previousParts : List String) (comment : String) (config : ConfiguredParsers) :
    ∀ (cs : List ParserId) (p : configParser),
      (∀ h f, f ∈ cs →
        ∃ e, c.PreParse h (mkCall line parts previousParts comment config f) = .error e) →
      tryParsers c line parts previousParts comment (cs.map some) p config
        = .ok (config, p.logged (cs.map (mkCall line parts previousParts comment config))) := by
  intro cs
  induction cs with
  | nil =>
    intro p _
    simp [tryParsers, pure, Except.pure, configParser.logged]
  | cons f cs ih =>
    intro p hfail
    obtain ⟨e, he⟩ := hfail p.calls f (List.mem_cons_self f cs)
    simp only [List.map_cons, tryParsers, he]
    rw [ih _ (fun h g hg => hfail h g (List.mem_cons_of_mem f hg))]
    simp [configParser.logged]

/-- The loop commits the first candidate, in visiting order, whose hook
succeeds: the candidates before it are invoked and fail, the ones after it are
not invoked. -/
theorem tryParsers_commit (c : Collaborators) (line : String)
    (parts previousParts : List String) (comment : String) (config : ConfiguredParsers)
    (f : ParserId) (unvisited : List (Option ParserId)) (s : String) :
    ∀ (failing : List ParserId) (p : configParser),
      (∀ h g, g ∈ failing →
        ∃ e, c.PreParse h (mkCall line parts previousParts comment config g) = .error e) →
      c.PreParse (p.calls ++ failing.map (mkCall line parts previousParts comment config))
        (mkCall line parts previousParts comment config f) = .ok s →
      tryParsers c line parts previousParts comment (failing.map some ++ some f :: unvisited)
          p config
        = commit c f s
            (p.logged (failing.map (mkCall line parts previousParts comment config)
              ++ [mkCall line parts previousParts comment config f])) config := by
  intro failing
  induction failing with
  | nil =>
    intro p _ hok
    simp only [List.map_nil, List.append_nil] at hok
    simp only [List.map_nil, List.nil_append, tryParsers, hok]
  | cons g failing ih =>
    intro p hfail hok
    obtain ⟨e, he⟩ := hfail p.calls g (List.mem_cons_self g failing)
    simp only [List.map_cons, List.cons_append, tryParsers, he]
    have hok2 : c.PreParse ((p.logged [mkCall line parts previousParts comment config g]).calls
        ++ failing.map (mkCall line parts previousParts comment config))
        (mkCall line parts previousParts comment config f) = .ok s := by
      simpa [configParser.logged] using hok
    have key := ih (p.logged [mkCall line parts previousParts comment config g])
      (fun h g' hg => hfail h g' (List.mem_cons_of_mem g hg)) hok2
    refine key.trans ?_
    simp [configParser.logged]

/-- A line that is not a queued comment goes through candidate selection and
the loop. -/
theorem ProcessLine_eq_dispatch (c : Collaborators) (p : configParser) (line : String)
    (parts previousParts : List String) (comment : String) (config : ConfiguredParsers)
    (h : config.State = "" ∨ ∃ t ts, parts = t :: ts ∧ ¬ queuedComment t comment) :
    ProcessLine c p line parts previousParts comment config
      = dispatch c p line parts previousParts comment config := by
  unfold ProcessLine
  rcases h with h | ⟨t, ts, rfl, h⟩
  · simp [h]
  · by_cases hs : config.State = ""
    · simp [hs]
    · simp [hs, h]

/-- The commit step makes no hook invocation. -/
theorem commit_calls (c : Collaborators) (parser : ParserId) (newState : String)
    (p p' : configParser) (config config' : ConfiguredParsers)
    (h : commit c parser newState p config = .ok (config', p')) : p'.calls = p.calls := by
  unfold commit at h
  by_cases hs : newState = ""
  · simp only [hs, ne_eq, not_true_eq_false, if_false, bind, Except.bind, pure, Except.pure] at h
    cases h
    rfl
  · simp only [ne_eq, hs, not_false_eq_true, if_true, bind, Except.bind] at h
    split at h
    · cases h
    · rename_i x hx
      obtain ⟨config2, p2⟩ := x
      simp only [pure, Except.pure] at h
      cases h
      exact changeState_calls _ _ _ _ _ _ _ hx

/-- C3, as stated, fails. With the demo catalog, a blank line and a comment-only
line between the snippet markers never reach the raw-snippet parser `7`: after
`global`, the begin marker, a blank line and `  # inner` only two hooks have
run and the comment sits in the directive-level queue (the end-of-input flush
then attaches it to the synthetic section); in the full region the parser sees
the begin marker, `  frontend x` and the end marker only. -/
theorem snippet_blank_and_comment_lines_not_captured :
    observe (Process demo (demoParser false)
        "global\n  ###_config-snippet_### BEGIN\n\n  # inner\n")
      = .ok ("snippet_beg", some ["inner"], none, some 3, true,
          [(2, "global"), (7, "  ###_config-snippet_### BEGIN")],
          [(none, none), (none, none), (none, none), (none, some ["inner"])]) ∧
    observe (Process demo (demoParser false)
        "global\n  ###_config-snippet_### BEGIN\n\n  # inner\n  frontend x\n  ###_config-snippet_### END\n")
      = .ok ("snippet_end", none, none, some 2, false,
          [(2, "global"), (7, "  ###_config-snippet_### BEGIN"), (7, "  frontend x"),
            (7, "  ###_config-snippet_### END")],
          [(none, none), (none, none), (none, none), (none, none)]) :=
  ⟨rfl, rfl⟩

/-- C3, amended: while a default parser is forced active (a raw-snippet
region), every line handed to `ProcessLine` with a non-empty first token, a
section keyword included, goes first to the default parser of the Active
registry, and when that hook succeeds it is the only hook invoked and is the
one committed. (Blank lines are skipped by `Process` and comment-only lines are
queued, so neither reaches the parser.) -/
theorem snippet_line_handed_to_default (c : Collaborators) (p : configParser)
    (line : String) (parts previousParts : List String) (comment : String)
    (config : ConfiguredParsers) (a : Parsers) (k : String) (tl : List String)
    (sp : ParserId) (t : String) (ts : List String) (s : String)
    (hActive : p.deref config.Active = .ok a) (hDefault : config.HasDefaultParser = true)
    (hSeq : a.ParserSequence = k :: tl) (hsp : a.Parsers k = some sp)
    (hparts : parts = t :: ts) (ht : t ≠ "")
    (hok : c.PreParse p.calls (mkCall line parts previousParts comment config sp) = .ok s) :
    ProcessLine c p line parts previousParts comment config
      = commit c sp s (p.logged [mkCall line parts previousParts comment config sp]) config ∧
    ∀ config' p', ProcessLine c p line parts previousParts comment config = .ok (config', p') →
      p'.calls = p.calls ++ [mkCall line parts previousParts comment config sp] := by
  have hne : parts ≠ [""] := by
    rw [hparts]
    intro h
    cases h
    exact ht rfl
  have hq : ¬ queuedComment t comment := fun h => ht h.1
  have hc := candidates_forced p config parts a k tl hActive hDefault hSeq (Or.inr hne)
  have hmain : ProcessLine c p line parts previousParts comment config
      = commit c sp s (p.logged [mkCall line parts previousParts comment config sp]) config := by
    rw [ProcessLine_eq_dispatch c p line parts previousParts comment config
      (Or.inr ⟨t, ts, hparts, hq⟩)]
    unfold dispatch
    simp only [hc, bind, Except.bind, hsp,
      List.reverse_append, List.reverse_cons, List.reverse_nil, List.nil_append,
      List.singleton_append]
    have key := tryParsers_commit c line parts previousParts comment config sp
      (if p.DisableUnProcessed then [] else [a.Parsers ""]).reverse s [] p
      (fun _ g hg => by cases hg) (by simpa using hok)
    simpa using key
  refine ⟨hmain, ?_⟩
  intro config' p' h
  rw [hmain] at h
  have := commit_calls _ _ _ _ _ _ _ h
  simpa [configParser.logged] using this

/-- C3 amended, at a concrete input: `  frontend x` inside a forced-default
region of the demo catalog is handed to the snippet parser `7` alone. -/
theorem snippet_line_handed_to_default_witness :
    observe (ProcessLine demo demoForcedP "  frontend x" ["frontend", "x"] [] "" demoForcedCursor)
      = .ok ("snippet_beg", none, none, some 0, true, [(7, "  frontend x")], [(none, none)]) ∧
    (ProcessLine demo demoForcedP "  frontend x" ["frontend", "x"] [] "" demoForcedCursor
      = commit demo 7 ""
          (demoForcedP.logged [mkCall "  frontend x" ["frontend", "x"] [] "" demoForcedCursor 7])
          demoForcedCursor ∧
    ∀ config' p',
      ProcessLine demo demoForcedP "  frontend x" ["frontend", "x"] [] "" demoForcedCursor
        = .ok (config', p') →
      p'.calls = demoForcedP.calls
        ++ [mkCall "  frontend x" ["frontend", "x"] [] "" demoForcedCursor 7]) :=
  ⟨rfl,
    snippet_line_handed_to_default demo demoForcedP "  frontend x" ["frontend", "x"] [] ""
      demoForcedCursor { demoSection true with ParserSequence := ["config-snippet"] }
      "config-snippet" [] 7 "frontend" ["x"] "" rfl rfl rfl rfl rfl (by decide) rfl⟩

/-- C4: the code fails at run time. With passthrough enabled, the cursor
reached after a raw-snippet begin marker has the candidate slice
`[nil, snippet parser]` (the synthetic registry has no `""` entry, and line 125
appends the lookup result unchecked); on a line the snippet parser rejects the
loop goes on to call `PreParse` on the nil entry, and `Process` panics. -/
theorem nil_candidate_invoked_in_snippet :
    (match Process demo (demoParser false) "global\n  ###_config-snippet_### BEGIN\n" with
      | .ok (config, p) =>
        p.DisableUnProcessed = false ∧ config.HasDefaultParser = true ∧
          candidates p ["\x7d", "x"] config = .ok [none, some 7] ∧
          ProcessLine demo p "  \x7d x" ["\x7d", "x"] ["config-snippet"]
            "" config = .error Panic.nilDereference
      | .error _ => False) ∧
    observe (Process demo (demoParser false)
        "global\n  ###_config-snippet_### BEGIN\n  \x7d x\n")
      = .error Panic.nilDereference :=
  ⟨⟨rfl, rfl, rfl, rfl⟩, rfl⟩

/-- When the line is dispatched (it is not a queued comment), every entry of
the candidate slice is a parser of the registry (none is nil) and every hook
fails, `ProcessLine` returns the cursor it was given, and the parser differs
only in the record of the hooks that were invoked: the aggregate and every
section instance are unchanged. -/
theorem all_hooks_fail_returns_cursor (c : Collaborators) (p : configParser) (line : String)
    (parts previousParts : List String) (comment : String) (config : ConfiguredParsers)
    (cs : List ParserId)
    (hdisp : config.State = "" ∨ ∃ t ts, parts = t :: ts ∧ ¬ queuedComment t comment)
    (hcand : candidates p parts config = .ok (cs.map some))
    (hfail : ∀ h f, f ∈ cs →
      ∃ e, c.PreParse h (mkCall line parts previousParts comment config f) = .error e) :
    ∃ p', ProcessLine c p line parts previousParts comment config = .ok (config, p') ∧
      p'.Parsers = p.Parsers ∧ p'.heap = p.heap ∧
      p'.DisableUnProcessed = p.DisableUnProcessed ∧
      p'.calls = p.calls ++ cs.reverse.map (mkCall line parts previousParts comment config) := by
  refine ⟨p.logged (cs.reverse.map (mkCall line parts previousParts comment config)),
    ?_, rfl, rfl, rfl, rfl⟩
  rw [ProcessLine_eq_dispatch c p line parts previousParts comment config hdisp]
  unfold dispatch
  simp only [hcand, bind, Except.bind]
  rw [← List.map_reverse]
  exact tryParsers_all_fail c line parts previousParts comment config cs.reverse p
    (fun h f hf => hfail h f (List.mem_reverse.mp hf))

/-- With passthrough disabled, the one-token line `bind` matches the `bind`
parser of the demo catalog, whose hook rejects it: the line is dropped. -/
theorem all_hooks_fail_returns_cursor_example :
    candidates (demoP true) ["bind"] (demoCursor true) = .ok ([5].map some) ∧
    ∃ p', ProcessLine demo (demoP true) "bind" ["bind"] [] "" (demoCursor true)
        = .ok (demoCursor true, p') ∧
      p'.Parsers = (demoP true).Parsers ∧ p'.heap = (demoP true).heap ∧
      p'.DisableUnProcessed = (demoP true).DisableUnProcessed ∧
      p'.calls = (demoP true).calls
        ++ [5].reverse.map (mkCall "bind" ["bind"] [] "" (demoCursor true)) :=
  ⟨rfl,
    all_hooks_fail_returns_cursor demo (demoP true) "bind" ["bind"] [] "" (demoCursor true) [5]
      (Or.inl rfl) rfl
      (fun _ f hf => by
        have h5 : f = 5 := by simpa using hf
        subst h5
        exact ⟨"not enough params", rfl⟩)⟩

/-- C5: the code departs from the claim when the slice holds a nil entry. In
the cursor `Process` reaches after a raw-snippet begin marker with passthrough
enabled, the only parser among the candidates for the line `  } x` is the
snippet parser `7`, and its hook fails; `ProcessLine` then does not return the
cursor unchanged but panics on the nil entry that line 125 appended. With
passthrough disabled the same line, in the same region, is dropped as the
claim says: the cursor is returned as given and only the record of invoked
hooks grows. -/
theorem unmatched_snippet_line_panics :
    (match Process demo (demoParser false) "global\n  ###_config-snippet_### BEGIN\n" with
      | .ok (config, p) =>
        candidates p ["\x7d", "x"] config = .ok [none, some 7] ∧
          demo.PreParse p.calls
              (mkCall "  \x7d x" ["\x7d", "x"] ["config-snippet"] "" config 7)
            = .error "invalid data" ∧
          ProcessLine demo p "  \x7d x" ["\x7d", "x"] ["config-snippet"] "" config
            = .error Panic.nilDereference
      | .error _ => False) ∧
    (match Process demo (demoParser true) "global\n  ###_config-snippet_### BEGIN\n" with
      | .ok (config, p) =>
        candidates p ["\x7d", "x"] config = .ok [some 7] ∧
          demo.PreParse p.calls
              (mkCall "  \x7d x" ["\x7d", "x"] ["config-snippet"] "" config 7)
            = .error "invalid data" ∧
          ProcessLine demo p "  \x7d x" ["\x7d", "x"] ["config-snippet"] "" config
            = .ok (config,
                p.logged [mkCall "  \x7d x" ["\x7d", "x"] ["config-snippet"] "" config 7])
      | .error _ => False) :=
  ⟨⟨rfl, rfl, rfl⟩, ⟨rfl, rfl, rfl⟩⟩

/-- C7: the hooks are invoked from the last-added candidate towards the first.
If the slice is `earlier ++ [f] ++ later`, every hook of `later` fails and the
hook of `f` succeeds, then the hooks invoked are those of `later`, last-added
first, then that of `f`; `f` is committed and no candidate of `earlier` (where
the catch-all `""` sits, being appended first) is invoked. -/
theorem hooks_tried_from_last_added (c : Collaborators) (p : configParser) (line : String)
    (parts previousParts : List String) (comment : String) (config : ConfiguredParsers)
    (earlier : List (Option ParserId)) (f : ParserId) (later : List ParserId) (s : String)
    (hdisp : config.State = "" ∨ ∃ t ts, parts = t :: ts ∧ ¬ queuedComment t comment)
    (hcand : candidates p parts config = .ok (earlier ++ some f :: later.map some))
    (hfail : ∀ h g, g ∈ later →
      ∃ e, c.PreParse h (mkCall line parts previousParts comment config g) = .error e)
    (hok : c.PreParse
        (p.calls ++ later.reverse.map (mkCall line parts previousParts comment config))
        (mkCall line parts previousParts comment config f) = .ok s) :
    ProcessLine c p line parts previousParts comment config
      = commit c f s
          (p.logged (later.reverse.map (mkCall line parts previousParts comment config)
            ++ [mkCall line parts previousParts comment config f])) config ∧
    ∀ config' p', ProcessLine c p line parts previousParts comment config = .ok (config', p') →
      p'.calls = p.calls ++ later.reverse.map (mkCall line parts previousParts comment config)
        ++ [mkCall line parts previousParts comment config f] := by
  have hmain : ProcessLine c p line parts previousParts comment config
      = commit c f s
          (p.logged (later.reverse.map (mkCall line parts previousParts comment config)
            ++ [mkCall line parts previousParts comment config f])) config := by
    rw [ProcessLine_eq_dispatch c p line parts previousParts comment config hdisp]
    unfold dispatch
    simp only [hcand, bind, Except.bind]
    have key := tryParsers_commit c line parts previousParts comment config f
      earlier.reverse s later.reverse p
      (fun h g hg => hfail h g (List.mem_reverse.mp hg)) hok
    rw [← key]
    congr 1
    simp [List.map_reverse]
  refine ⟨hmain, ?_⟩
  intro config' p' h
  rw [hmain] at h
  have := commit_calls _ _ _ _ _ _ _ h
  simpa [configParser.logged] using this

/-- C7 at a concrete input: with passthrough enabled the slice for the line
`bind` is `[catch-all, bind]`; the `bind` hook runs first and fails, then the
catch-all hook runs and is committed. -/
theorem hooks_tried_from_last_added_witness :
    candidates (demoP false) ["bind"] (demoCursor false) = .ok ([] ++ some 0 :: [5].map some) ∧
    observe (ProcessLine demo (demoP false) "bind" ["bind"] [] "" (demoCursor false))
      = .ok ("", none, none, some 0, false, [(5, "bind"), (0, "bind")],
          [(none, none), (none, none), (none, none)]) ∧
    (ProcessLine demo (demoP false) "bind" ["bind"] [] "" (demoCursor false)
      = commit demo 0 ""
          ((demoP false).logged ([5].reverse.map (mkCall "bind" ["bind"] [] "" (demoCursor false))
            ++ [mkCall "bind" ["bind"] [] "" (demoCursor false) 0])) (demoCursor false) ∧
    ∀ config' p', ProcessLine demo (demoP false) "bind" ["bind"] [] "" (demoCursor false)
        = .ok (config', p') →
      p'.calls = (demoP false).calls
        ++ [5].reverse.map (mkCall "bind" ["bind"] [] "" (demoCursor false))
        ++ [mkCall "bind" ["bind"] [] "" (demoCursor false) 0]) :=
  ⟨rfl, rfl,
    hooks_tried_from_last_added demo (demoP false) "bind" ["bind"] [] "" (demoCursor false)
      [] 0 [5] "" (Or.inl rfl) rfl
      (fun _ g hg => by
        have h5 : g = 5 := by simpa using hg
        subst h5
        exact ⟨"not enough params", rfl⟩)
      rfl⟩

/-- C6, as stated, fails when passthrough is disabled. On a
registry with the keys `no log` and `log`, the tokens `no log` match the keyword
`no log`; with passthrough enabled the slice is `[catch-all, no log]` and no
retry is made, but with passthrough disabled the slice holds one entry, the
guard `len(parsers) < 2` of line 144 passes, and the entry for `log` is added
by the retry although a keyword prefix of the full token list had matched. -/
theorem negation_retry_after_keyword_match :
    keywordCandidates (negP true) ["no", "log"] negCursor = .ok [some 10] ∧
    candidates (negP true) ["no", "log"] negCursor = .ok [some 10, some 11] ∧
    candidates (negP false) ["no", "log"] negCursor = .ok [some 0, some 10] :=
  ⟨rfl, rfl, rfl⟩

/-! ## The outcomes of `ProcessLine` -/

/-- The switch on the new state leaves both comment queues as they are. -/
theorem switchActive_queues (c : Collaborators) (parser : ParserId) (p p' : configParser)
    (config config' : ConfiguredParsers)
    (h : switchActive c parser p config = .ok (config', p')) :
    config'.ActiveComments = config.ActiveComments ∧
      config'.ActiveSectionComments = config.ActiveSectionComments := by
  unfold switchActive at h
  by_cases h0 : config.State = ""
  · rw [if_pos h0] at h
    cases h
    exact ⟨rfl, rfl⟩
  rw [if_neg h0] at h
  by_cases h1 : config.State = "defaults"
  · rw [if_pos h1] at h
    cases h
    exact ⟨rfl, rfl⟩
  rw [if_neg h1] at h
  by_cases h2 : config.State = "global"
  · rw [if_pos h2] at h
    cases h
    exact ⟨rfl, rfl⟩
  rw [if_neg h2] at h
  by_cases h3 : config.State = "frontend"
  · rw [if_pos h3] at h
    simp only [bind, Except.bind] at h
    split at h
    · cases h
    · rename_i x hx
      obtain ⟨r, q⟩ := x
      cases h
      exact ⟨rfl, rfl⟩
  rw [if_neg h3] at h
  by_cases h4 : config.State = "backend"
  · rw [if_pos h4] at h
    simp only [bind, Except.bind] at h
    split at h
    · cases h
    · rename_i x hx
      obtain ⟨r, q⟩ := x
      cases h
      exact ⟨rfl, rfl⟩
  rw [if_neg h4] at h
  by_cases h5 : config.State = "listen"
  · rw [if_pos h5] at h
    simp only [bind, Except.bind] at h
    split at h
    · cases h
    · rename_i x hx
      obtain ⟨r, q⟩ := x
      cases h
      exact ⟨rfl, rfl⟩
  rw [if_neg h5] at h
  by_cases h6 : config.State = "resolvers"
  · rw [if_pos h6] at h
    simp only [bind, Except.bind] at h
    split at h
    · cases h
    · rename_i x hx
      obtain ⟨r, q⟩ := x
      cases h
      exact ⟨rfl, rfl⟩
  rw [if_neg h6] at h
  by_cases h7 : config.State = "userlist"
  · rw [if_pos h7] at h
    simp only [bind, Except.bind] at h
    split at h
    · cases h
    · rename_i x hx
      obtain ⟨r, q⟩ := x
      cases h
      exact ⟨rfl, rfl⟩
  rw [if_neg h7] at h
  by_cases h8 : config.State = "peers"
  · rw [if_pos h8] at h
    simp only [bind, Except.bind] at h
    split at h
    · cases h
    · rename_i x hx
      obtain ⟨r, q⟩ := x
      cases h
      exact ⟨rfl, rfl⟩
  rw [if_neg h8] at h
  by_cases h9 : config.State = "mailers"
  · rw [if_pos h9] at h
    simp only [bind, Except.bind] at h
    split at h
    · cases h
    · rename_i x hx
      obtain ⟨r, q⟩ := x
      cases h
      exact ⟨rfl, rfl⟩
  rw [if_neg h9] at h
  by_cases h10 : config.State = "cache"
  · rw [if_pos h10] at h
    simp only [bind, Except.bind] at h
    split at h
    · cases h
    · rename_i x hx
      obtain ⟨r, q⟩ := x
      cases h
      exact ⟨rfl, rfl⟩
  rw [if_neg h10] at h
  by_cases h11 : config.State = "program"
  · rw [if_pos h11] at h
    simp only [bind, Except.bind] at h
    split at h
    · cases h
    · rename_i x hx
      obtain ⟨r, q⟩ := x
      cases h
      exact ⟨rfl, rfl⟩
  rw [if_neg h11] at h
  by_cases h12 : config.State = "http-errors"
  · rw [if_pos h12] at h
    simp only [bind, Except.bind] at h
    split at h
    · cases h
    · rename_i x hx
      obtain ⟨r, q⟩ := x
      cases h
      exact ⟨rfl, rfl⟩
  rw [if_neg h12] at h
  by_cases h13 : config.State = "ring"
  · rw [if_pos h13] at h
    simp only [bind, Except.bind] at h
    split at h
    · cases h
    · rename_i x hx
      obtain ⟨r, q⟩ := x
      cases h
      exact ⟨rfl, rfl⟩
  rw [if_neg h13] at h
  by_cases h14 : config.State = "snippet_beg"
  · rw [if_pos h14] at h
    cases h
    exact ⟨rfl, rfl⟩
  rw [if_neg h14] at h
  by_cases h15 : config.State = "snippet_end"
  · rw [if_pos h15] at h
    cases h
    exact ⟨rfl, rfl⟩
  rw [if_neg h15] at h
  cases h
  exact ⟨rfl, rfl⟩

/-- What entering a named section does: it reads the name, appends the new
instance to the heap and stores its pointer under `(kind, name)`. -/
theorem enterSection_ok (c : Collaborators) (parser : ParserId) (kind : Section)
    (getParser : configParser → Parsers) (p p' : configParser) (r : Ref)
    (h : enterSection c parser kind getParser p = .ok (r, p')) :
    ∃ name, c.Get p.calls parser = some name ∧ r = p.heap.length ∧
      p' = (p.alloc (getParser p)).2.store kind name (some r) := by
  unfold enterSection sectionName at h
  cases hn : c.Get p.calls parser with
  | none => simp [hn, bind, Except.bind] at h
  | some name =>
    simp only [hn, bind, Except.bind, pure, Except.pure, configParser.alloc] at h
    cases h
    exact ⟨name, rfl, rfl, rfl⟩

/-- In each of the eleven named-section cases the switch enters the section of
that kind and makes the new instance Active. -/
theorem switchActive_named (c : Collaborators) (parser : ParserId) (p p' : configParser)
    (config config' : ConfiguredParsers) (st : String) (kind : Section)
    (getParser : configParser → Parsers)
    (hmem : (st, kind, getParser) ∈ namedSections c) (hst : config.State = st)
    (h : switchActive c parser p config = .ok (config', p')) :
    ∃ r, enterSection c parser kind getParser p = .ok (r, p') ∧ config'.Active = some r ∧
      config'.ActiveSectionComments = config.ActiveSectionComments := by
  unfold switchActive at h
  simp only [namedSections, List.mem_cons, Prod.mk.injEq, List.mem_singleton, List.not_mem_nil,
    or_false] at hmem
  rcases hmem with hm | hm | hm | hm | hm | hm | hm | hm | hm | hm | hm <;>
    obtain ⟨rfl, rfl, rfl⟩ := hm <;>
    simp only [hst, String.reduceEq, if_false, if_true, bind, Except.bind] at h <;>
    split at h <;>
    first
      | (cases h; done)
      | (rename_i x hx
         obtain ⟨r, q⟩ := x
         simp only [pure, Except.pure] at h
         cases h
         exact ⟨r, hx, rfl, rfl⟩)

/-- Logging no invocation changes nothing. -/
theorem logged_nil (p : configParser) : p.logged [] = p := by
  cases p
  simp [configParser.logged]

/-- Logging in two steps is logging the concatenation. -/
theorem logged_logged (p : configParser) (xs ys : List Call) :
    (p.logged xs).logged ys = p.logged (xs ++ ys) := by
  simp [configParser.logged]

/-- The outcomes of the loop: either every visited hook failed and the cursor is
returned as given, or the first hook that succeeded was committed. -/
theorem tryParsers_cases (c : Collaborators) (line : String)
    (parts previousParts : List String) (comment : String)
    (config config' : ConfiguredParsers) (p' : configParser) :
    ∀ (l : List (Option ParserId)) (p : configParser),
      tryParsers c line parts previousParts comment l p config = .ok (config', p') →
      (config' = config ∧ ∃ failed : List ParserId,
        p' = p.logged (failed.map (mkCall line parts previousParts comment config))) ∨
      ∃ (failed : List ParserId) (f : ParserId) (s : String),
        c.PreParse (p.calls ++ failed.map (mkCall line parts previousParts comment config))
          (mkCall line parts previousParts comment config f) = .ok s ∧
        tryParsers c line parts previousParts comment l p config
          = commit c f s
              (p.logged (failed.map (mkCall line parts previousParts comment config)
                ++ [mkCall line parts previousParts comment config f])) config := by
  intro l
  induction l with
  | nil =>
    intro p h
    simp only [tryParsers, pure, Except.pure] at h
    cases h
    exact Or.inl ⟨rfl, [], by simp [logged_nil]⟩
  | cons o rest ih =>
    intro p h
    cases o with
    | none => simp [tryParsers, throw, throwThe, MonadExceptOf.throw] at h
    | some g =>
      cases hres : c.PreParse p.calls (mkCall line parts previousParts comment config g) with
      | error e =>
        have hstep : tryParsers c line parts previousParts comment (some g :: rest) p config
            = tryParsers c line parts previousParts comment rest
                (p.logged [mkCall line parts previousParts comment config g]) config := by
          simp only [tryParsers, hres]
        rw [hstep] at h
        rcases ih _ h with ⟨h1, failed, h2⟩ | ⟨failed, f, s, h1, h2⟩
        · refine Or.inl ⟨h1, g :: failed, ?_⟩
          rw [h2, logged_logged]
          rfl
        · refine Or.inr ⟨g :: failed, f, s, ?_, ?_⟩
          · simpa [configParser.logged] using h1
          · rw [hstep, h2, logged_logged]
            rfl
      | ok s =>
        refine Or.inr ⟨[], g, s, by simpa using hres, ?_⟩
        simp only [tryParsers, hres, List.map_nil, List.nil_append]

/-- The outcomes of `ProcessLine`: the line is queued as a comment, or every
hook failed and the cursor is returned as given, or a candidate was committed. -/
theorem ProcessLine_cases (c : Collaborators) (p p' : configParser) (line : String)
    (parts previousParts : List String) (comment : String)
    (config config' : ConfiguredParsers)
    (h : ProcessLine c p line parts previousParts comment config = .ok (config', p')) :
    (p' = p ∧ (∃ ts, parts = "" :: ts) ∧ comment ≠ "##_config-snippet_### BEGIN" ∧
      comment ≠ "##_config-snippet_### END" ∧
      (config' = { config with ActiveComments := appendOne config.ActiveComments comment } ∨
        config' = { config with
          ActiveSectionComments := appendOne config.ActiveSectionComments comment })) ∨
    (config' = config ∧ ∃ failed : List ParserId,
      p' = p.logged (failed.map (mkCall line parts previousParts comment config))) ∨
    ∃ (failed : List ParserId) (f : ParserId) (s : String),
      c.PreParse (p.calls ++ failed.map (mkCall line parts previousParts comment config))
        (mkCall line parts previousParts comment config f) = .ok s ∧
      ProcessLine c p line parts previousParts comment config
        = commit c f s
            (p.logged (failed.map (mkCall line parts previousParts comment config)
              ++ [mkCall line parts previousParts comment config f])) config := by
  have hdisp : ProcessLine c p line parts previousParts comment config
      = dispatch c p line parts previousParts comment config →
      (config' = config ∧ ∃ failed : List ParserId,
        p' = p.logged (failed.map (mkCall line parts previousParts comment config))) ∨
      ∃ (failed : List ParserId) (f : ParserId) (s : String),
        c.PreParse (p.calls ++ failed.map (mkCall line parts previousParts comment config))
          (mkCall line parts previousParts comment config f) = .ok s ∧
        ProcessLine c p line parts previousParts comment config
          = commit c f s
              (p.logged (failed.map (mkCall line parts previousParts comment config)
                ++ [mkCall line parts previousParts comment config f])) config := by
    intro heq
    have hd := h
    rw [heq] at hd
    unfold dispatch at hd
    cases hc : candidates p parts config with
    | error e => simp [hc, bind, Except.bind] at hd
    | ok cs =>
      simp only [hc, bind, Except.bind] at hd
      rcases tryParsers_cases c line parts previousParts comment config config' p' _ p hd with
        h1 | ⟨failed, f, s, h1, h2⟩
      · exact Or.inl h1
      · refine Or.inr ⟨failed, f, s, h1, ?_⟩
        rw [heq]
        unfold dispatch
        simp only [hc, bind, Except.bind]
        exact h2
  by_cases hs : config.State = ""
  · exact Or.inr (hdisp (ProcessLine_eq_dispatch c p line parts previousParts comment config
      (Or.inl hs)))
  · cases parts with
    | nil => simp [ProcessLine, hs, throw, throwThe, MonadExceptOf.throw] at h
    | cons t ts =>
      by_cases hq : queuedComment t comment
      · left
        unfold ProcessLine at h
        simp only [ne_eq, hs, not_false_eq_true, if_true, hq] at h
        obtain ⟨ht, _, hb, he⟩ := hq
        cases hl : line.data with
        | nil => simp [hl, throw, throwThe, MonadExceptOf.throw] at h
        | cons b bs =>
          simp only [hl, pure, Except.pure] at h
          split at h
          · cases h
            exact ⟨rfl, ⟨ts, by rw [ht]⟩, hb, he, Or.inl rfl⟩
          · cases h
            exact ⟨rfl, ⟨ts, by rw [ht]⟩, hb, he, Or.inr rfl⟩
      · exact Or.inr (hdisp (ProcessLine_eq_dispatch c p line (t :: ts) previousParts comment
          config (Or.inr ⟨t, ts, rfl, hq⟩)))

/-- A committed state change leaves the directive-level queue as it is and
either keeps or clears the section-level queue. -/
theorem changeState_queues (c : Collaborators) (parser : ParserId) (newState : String)
    (p p' : configParser) (config config' : ConfiguredParsers)
    (h : changeState c parser newState p config = .ok (config', p')) :
    config'.ActiveComments = config.ActiveComments ∧
      (config'.ActiveSectionComments = config.ActiveSectionComments ∨
        config'.ActiveSectionComments = none) := by
  unfold changeState at h
  cases h1 : attachPostComments p config with
  | error e => simp [h1, bind, Except.bind] at h
  | ok p1 =>
    simp only [h1, bind, Except.bind] at h
    cases h2 : switchActive c parser p1 { config with State := newState } with
    | error e => simp [h2] at h
    | ok r2 =>
      obtain ⟨config2, p2⟩ := r2
      obtain ⟨q1, q2⟩ := switchActive_queues _ _ _ _ _ _ h2
      simp only [h2] at h
      unfold attachPreComments at h
      split at h
      · cases h3 : p2.assign
            (fun a => { a with PreComments := config2.ActiveSectionComments }) config2.Active with
        | error e => simp [h3, bind, Except.bind] at h
        | ok p3 =>
          simp only [h3, bind, Except.bind, pure, Except.pure] at h
          cases h
          exact ⟨q1, Or.inr rfl⟩
      · cases h
        exact ⟨q1, Or.inl q2⟩

/-- The commit step clears the directive-level queue and either keeps or clears
the section-level queue. -/
theorem commit_queues (c : Collaborators) (parser : ParserId) (newState : String)
    (p p' : configParser) (config config' : ConfiguredParsers)
    (h : commit c parser newState p config = .ok (config', p')) :
    config'.ActiveComments = none ∧
      (config'.ActiveSectionComments = config.ActiveSectionComments ∨
        config'.ActiveSectionComments = none) := by
  unfold commit at h
  by_cases hs : newState = ""
  · simp only [hs, ne_eq, not_true_eq_false, if_false, bind, Except.bind, pure, Except.pure] at h
    cases h
    exact ⟨rfl, Or.inl rfl⟩
  · simp only [ne_eq, hs, not_false_eq_true, if_true, bind, Except.bind] at h
    split at h
    · cases h
    · rename_i x hx
      obtain ⟨config2, p2⟩ := x
      simp only [pure, Except.pure] at h
      cases h
      exact ⟨rfl, (changeState_queues _ _ _ _ _ _ _ hx).2⟩

/-- The commit step with the empty state only clears the directive-level queue. -/
theorem commit_empty (c : Collaborators) (parser : ParserId) (p : configParser)
    (config : ConfiguredParsers) :
    commit c parser "" p config = .ok ({ config with ActiveComments := none }, p) := by
  simp [commit, bind, Except.bind, pure, Except.pure]

/-! ## Comment lines -/

/-- C10, as stated, fails for indentation by a tab. In the `global` section the
comment-only line made of a tab and `# note` goes to the section-level queue;
the directive-level queue stays nil. -/
theorem tab_indented_comment_is_section_level :
    observe (ProcessLine demo (demoP false) "\t# note" [""] ["global"] "note" demoGlobalCursor)
      = .ok ("global", none, some ["note"], some 2, false, [],
          [(none, none), (none, none), (none, none)]) :=
  rfl

/-- C10, amended: a comment-only line (`parts[0]` empty, comment non-empty and
not a raw-snippet sentinel) processed while the section state is non-empty is
appended to the directive-level queue when the first character of the line is a
space, and to the section-level queue otherwise (a tab included); no hook is
invoked and nothing else changes. When the comment is a raw-snippet sentinel,
whatever the tokens, each queue is either unchanged or cleared in the cursor
`ProcessLine` returns: the sentinel is appended to neither. -/
theorem comment_line_is_queued (c : Collaborators) (p : configParser) (line : String)
    (parts previousParts : List String) (comment : String) (config : ConfiguredParsers) :
    (∀ (ts : List String) (b : Char) (bs : List Char),
      config.State ≠ "" → parts = "" :: ts → comment ≠ "" → line.data = b :: bs →
      comment ≠ "##_config-snippet_### BEGIN" → comment ≠ "##_config-snippet_### END" →
      ProcessLine c p line parts previousParts comment config
        = .ok (if b = ' '
            then { config with ActiveComments := appendOne config.ActiveComments comment }
            else { config with
              ActiveSectionComments := appendOne config.ActiveSectionComments comment }, p)) ∧
    (comment = "##_config-snippet_### BEGIN" ∨ comment = "##_config-snippet_### END" →
      ∀ config' p', ProcessLine c p line parts previousParts comment config = .ok (config', p') →
        (config'.ActiveComments = config.ActiveComments ∨ config'.ActiveComments = none) ∧
        (config'.ActiveSectionComments = config.ActiveSectionComments ∨
          config'.ActiveSectionComments = none)) := by
  constructor
  · intro ts b bs hState hparts hcomment hline hb he
    have hq : queuedComment "" comment := ⟨rfl, hcomment, hb, he⟩
    subst hparts
    unfold ProcessLine
    simp only [ne_eq, hState, not_false_eq_true, if_true, hq, hline, pure, Except.pure]
    split <;> rfl
  · intro hsent config' p' h
    rcases ProcessLine_cases c p p' line parts previousParts comment config config' h with
      ⟨_, _, hb, he, _⟩ | ⟨h1, _⟩ | ⟨failed, f, s, _, h2⟩
    · rcases hsent with hs | hs
      · exact absurd hs hb
      · exact absurd hs he
    · subst h1
      exact ⟨Or.inl rfl, Or.inl rfl⟩
    · rw [h2] at h
      obtain ⟨q1, q2⟩ := commit_queues _ _ _ _ _ _ _ h
      exact ⟨Or.inr q1, q2⟩

/-- C10 amended, at concrete inputs: in the `global` section of the demo
catalog the line `  # note` goes to the directive-level queue, and the begin
marker, with pending comments in both queues, is appended to neither. -/
theorem comment_line_is_queued_witness :
    observe (ProcessLine demo (demoP false) "  # note" [""] ["global"] "note" demoGlobalCursor)
      = .ok ("global", some ["note"], none, some 2, false, [],
          [(none, none), (none, none), (none, none)]) ∧
    ProcessLine demo (demoP false) "  # note" [""] ["global"] "note" demoGlobalCursor
      = .ok (if ' ' = ' '
          then { demoGlobalCursor with
            ActiveComments := appendOne demoGlobalCursor.ActiveComments "note" }
          else { demoGlobalCursor with
            ActiveSectionComments := appendOne demoGlobalCursor.ActiveSectionComments "note" },
          demoP false) ∧
    observe (ProcessLine demo (demoP false) "  ###_config-snippet_### BEGIN" ["config-snippet"]
        ["global"] "##_config-snippet_### BEGIN" demoPendingCursor)
      = .ok ("snippet_beg", none, none, some 3, true, [(7, "  ###_config-snippet_### BEGIN")],
          [(none, none), (none, none), (none, some ["a"]), (some ["b"], none)]) ∧
    ∀ config' p',
      ProcessLine demo (demoP false) "  ###_config-snippet_### BEGIN" ["config-snippet"]
          ["global"] "##_config-snippet_### BEGIN" demoPendingCursor = .ok (config', p') →
      (config'.ActiveComments = demoPendingCursor.ActiveComments ∨
        config'.ActiveComments = none) ∧
      (config'.ActiveSectionComments = demoPendingCursor.ActiveSectionComments ∨
        config'.ActiveSectionComments = none) :=
  ⟨rfl,
    (comment_line_is_queued demo (demoP false) "  # note" [""] ["global"] "note"
      demoGlobalCursor).1 [] ' ' [' ', '#', ' ', 'n', 'o', 't', 'e'] (by decide) rfl
      (by decide) rfl (by decide) (by decide),
    rfl,
    (comment_line_is_queued demo (demoP false) "  ###_config-snippet_### BEGIN"
      ["config-snippet"] ["global"] "##_config-snippet_### BEGIN" demoPendingCursor).2
      (Or.inl rfl)⟩

/-! ## Section boundaries -/

/-- The directive-level flush of a committed state change touches neither the
record of invocations, nor the aggregate, nor the size of the heap. -/
theorem attachPostComments_frame (p p1 : configParser) (config : ConfiguredParsers)
    (h : attachPostComments p config = .ok p1) :
    p1.calls = p.calls ∧ p1.Parsers = p.Parsers ∧ p1.heap.length = p.heap.length := by
  unfold attachPostComments at h
  split at h
  · obtain ⟨h1, h2, _, h4⟩ := assign_frame _ _ _ _ h
    exact ⟨h1, h2, h4⟩
  · cases h
    exact ⟨rfl, rfl, rfl⟩

/-- A committed change to one of the eleven named states: the section name is
read from the committed parser, a new instance built by the constructor of the
kind is appended to the heap (with the pending section-level comments as its
`PreComments`), stored under `(kind, name)` and made Active. -/
theorem changeState_named (c : Collaborators) (parser : ParserId) (p p' : configParser)
    (config config' : ConfiguredParsers) (st : String) (kind : Section)
    (getParser : configParser → Parsers)
    (hmem : (st, kind, getParser) ∈ namedSections c)
    (h : changeState c parser st p config = .ok (config', p')) :
    ∃ p1 name, attachPostComments p config = .ok p1 ∧ c.Get p.calls parser = some name ∧
      config'.Active = some p.heap.length ∧
      p'.Parsers = (fun k n => if k = kind ∧ n = name then some p.heap.length
        else p.Parsers k n) ∧
      p'.heap = p1.heap ++ [if config.ActiveSectionComments.isSome
        then { getParser p1 with PreComments := config.ActiveSectionComments }
        else getParser p1] ∧
      p1.heap.length = p.heap.length := by
  unfold changeState at h
  cases h1 : attachPostComments p config with
  | error e => simp [h1, bind, Except.bind] at h
  | ok p1 =>
    obtain ⟨f1, f2, f3⟩ := attachPostComments_frame _ _ _ h1
    simp only [h1, bind, Except.bind] at h
    cases h2 : switchActive c parser p1 { config with State := st } with
    | error e => simp [h2] at h
    | ok r2 =>
      obtain ⟨config2, p2⟩ := r2
      obtain ⟨r, e1, e2, e3⟩ := switchActive_named c parser p1 p2 _ config2 st kind getParser
        hmem rfl h2
      obtain ⟨name, g1, g2, g3⟩ := enterSection_ok _ _ _ _ _ _ _ e1
      simp only [h2] at h
      rw [f1] at g1
      have hr : r = p.heap.length := by rw [g2, f3]
      have hheap : p2.heap = p1.heap ++ [getParser p1] := by
        rw [g3]
        rfl
      have hagg : p2.Parsers = (fun k n => if k = kind ∧ n = name then some p.heap.length
          else p.Parsers k n) := by
        rw [g3, ← hr, ← f2]
        rfl
      unfold attachPreComments at h
      simp only [e3] at h
      by_cases hsc : config.ActiveSectionComments.isSome = true
      · simp only [hsc, if_true, e2] at h
        have hget : p2.heap[r]? = some (getParser p1) := by
          rw [hheap, g2]
          simp
        simp only [configParser.assign, hget, bind, Except.bind, pure, Except.pure] at h
        cases h
        refine ⟨p1, name, rfl, g1, by rw [← hr], hagg, ?_, f3⟩
        simp only [hsc, if_true, hheap, g2]
        simp
      · simp only [hsc, Bool.false_eq_true, if_false, pure, Except.pure] at h
        cases h
        refine ⟨p1, name, rfl, g1, by rw [e2, hr], hagg, ?_, f3⟩
        simp only [hsc, Bool.false_eq_true, if_false, hheap]

/-- The commit step for one of the eleven named states. -/
theorem commit_named (c : Collaborators) (parser : ParserId) (p p' : configParser)
    (config config' : ConfiguredParsers) (st : String) (kind : Section)
    (getParser : configParser → Parsers)
    (hmem : (st, kind, getParser) ∈ namedSections c)
    (h : commit c parser st p config = .ok (config', p')) :
    ∃ p1 name, attachPostComments p config = .ok p1 ∧ c.Get p.calls parser = some name ∧
      config'.Active = some p.heap.length ∧
      p'.Parsers = (fun k n => if k = kind ∧ n = name then some p.heap.length
        else p.Parsers k n) ∧
      p'.heap = p1.heap ++ [if config.ActiveSectionComments.isSome
        then { getParser p1 with PreComments := config.ActiveSectionComments }
        else getParser p1] ∧
      p1.heap.length = p.heap.length := by
  have hne : st ≠ "" := by
    simp only [namedSections, List.mem_cons, Prod.mk.injEq, List.mem_singleton,
      List.not_mem_nil, or_false] at hmem
    rcases hmem with hm | hm | hm | hm | hm | hm | hm | hm | hm | hm | hm <;>
      obtain ⟨rfl, _, _⟩ := hm <;> decide
  unfold commit at h
  simp only [ne_eq, hne, not_false_eq_true, if_true, bind, Except.bind] at h
  split at h
  · cases h
  · rename_i x hx
    obtain ⟨config2, p2⟩ := x
    simp only [pure, Except.pure] at h
    cases h
    exact changeState_named c parser p _ config config2 st kind getParser hmem hx

/-- C9: a committed transition to a named state `st` of kind `kind`, the
committed parser exposing the section name `n`, appends a new instance (built
by the constructor of the kind, carrying the pending section-level comments as
`PreComments`) to the heap, at a reference `r` no earlier pointer has; stores
`r` under `(kind, n)` whatever was stored there; makes it Active; and leaves
every other `(kind, name)` entry as it was. An instance stored under `(kind, n)`
before is therefore no longer what the name retrieves. -/
theorem named_section_last_definition_wins (c : Collaborators) (parser : ParserId)
    (p p' : configParser) (config config' : ConfiguredParsers) (st : String) (kind : Section)
    (getParser : configParser → Parsers) (n : String)
    (hmem : (st, kind, getParser) ∈ namedSections c)
    (hname : c.Get p.calls parser = some n)
    (h : commit c parser st p config = .ok (config', p')) :
    ∃ r inst p1, r = p.heap.length ∧ attachPostComments p config = .ok p1 ∧
      inst = (if config.ActiveSectionComments.isSome
        then { getParser p1 with PreComments := config.ActiveSectionComments }
        else getParser p1) ∧
      p'.heap[r]? = some inst ∧
      p'.Parsers kind n = some r ∧
      config'.Active = some r ∧
      (∀ kind' n', ¬ (kind' = kind ∧ n' = n) → p'.Parsers kind' n' = p.Parsers kind' n') ∧
      (∀ old, old < p.heap.length → p'.Parsers kind n ≠ some old) := by
  obtain ⟨p1, name, a1, a2, a3, a4, a5, a6⟩ :=
    commit_named c parser p p' config config' st kind getParser hmem h
  rw [hname] at a2
  cases a2
  refine ⟨p.heap.length, _, p1, rfl, a1, rfl, ?_, ?_, a3, ?_, ?_⟩
  · rw [a5, ← a6]
    simp
  · rw [a4]
    simp
  · intro kind' n' hne
    rw [a4]
    simp [hne]
  · intro old hold
    rw [a4]
    simp only [and_self, if_true, ne_eq, Option.some.injEq]
    omega

/-- C9 at a concrete input: committing `backend b` on the demo catalog stores
the new instance at reference `3`; and after `Process` has read two `backend b`
boundaries the name retrieves the second instance, at reference `4`. -/
theorem named_section_last_definition_wins_witness :
    (match Process demo (demoParser false) "backend b\n  mode x\nbackend b\n  mode y\n" with
      | .ok (config, p) =>
        p.Parsers Section.Backends "b" = some 4 ∧ config.Active = some 4 ∧ p.heap.length = 5
      | .error _ => False) ∧
    ∃ r inst p1, r = demoBackendP.heap.length ∧
      attachPostComments demoBackendP (demoCursor false) = .ok p1 ∧
      inst = (if (demoCursor false).ActiveSectionComments.isSome
        then { demo.getBackendParser p1 with
          PreComments := (demoCursor false).ActiveSectionComments }
        else demo.getBackendParser p1) ∧
      (okValue (commit demo 4 "backend" demoBackendP (demoCursor false))
        (demoCursor false, demoBackendP)).2.heap[r]? = some inst ∧
      (okValue (commit demo 4 "backend" demoBackendP (demoCursor false))
        (demoCursor false, demoBackendP)).2.Parsers Section.Backends "b" = some r ∧
      (okValue (commit demo 4 "backend" demoBackendP (demoCursor false))
        (demoCursor false, demoBackendP)).1.Active = some r ∧
      (∀ kind' n', ¬ (kind' = Section.Backends ∧ n' = "b") →
        (okValue (commit demo 4 "backend" demoBackendP (demoCursor false))
          (demoCursor false, demoBackendP)).2.Parsers kind' n'
          = demoBackendP.Parsers kind' n') ∧
      (∀ old, old < demoBackendP.heap.length →
        (okValue (commit demo 4 "backend" demoBackendP (demoCursor false))
          (demoCursor false, demoBackendP)).2.Parsers Section.Backends "b" ≠ some old) :=
  ⟨⟨rfl, rfl, rfl⟩,
    named_section_last_definition_wins demo 4 demoBackendP
      (okValue (commit demo 4 "backend" demoBackendP (demoCursor false))
        (demoCursor false, demoBackendP)).2
      (demoCursor false)
      (okValue (commit demo 4 "backend" demoBackendP (demoCursor false))
        (demoCursor false, demoBackendP)).1
      "backend" Section.Backends demo.getBackendParser "b"
      (by simp [namedSections]) rfl rfl⟩

/-- A keyword loop returns an entry of the Active registry. -/
theorem matchKeyword_mem (p : configParser) (config : ConfiguredParsers)
    (parts : List String) (a : Parsers) (lo : Nat)
    (hActive : p.deref config.Active = .ok a) :
    ∀ n i f, matchKeyword p config parts lo i n = .ok (some f) →
      ∃ key, some f = a.Parsers key := by
  intro n
  induction n with
  | zero =>
    intro i f h
    simp [matchKeyword, pure, Except.pure] at h
  | succ n ih =>
    intro i f h
    unfold matchKeyword at h
    split at h
    · simp [pure, Except.pure] at h
    · simp only [hActive, bind, Except.bind] at h
      cases hkey : a.Parsers (Join ((parts.take i).drop lo) " ") with
      | some g =>
        simp only [hkey, pure, Except.pure] at h
        cases h
        exact ⟨_, hkey.symm⟩
      | none =>
        simp only [hkey] at h
        exact ih _ _ h

/-- Every candidate is the result of a lookup in the registry of the Active
section. -/
theorem candidates_from_registry (p : configParser) (parts : List String)
    (config : ConfiguredParsers) (a : Parsers) (cs : List (Option ParserId))
    (hActive : p.deref config.Active = .ok a)
    (h : candidates p parts config = .ok cs) :
    ∀ o, o ∈ cs → ∃ key, o = a.Parsers key := by
  unfold candidates at h
  cases hk : keywordCandidates p parts config with
  | error e => simp [hk, bind, Except.bind] at h
  | ok ks =>
    simp only [hk, bind, Except.bind] at h
    have hks : ∀ o, o ∈ ks → ∃ key, o = a.Parsers key := by
      unfold keywordCandidates at hk
      simp only [hActive, bind, Except.bind, pure, Except.pure, List.nil_append] at hk
      cases hm : matchKeyword p config parts 0 1 parts.length with
      | error e =>
        simp only [hm] at hk
        split at hk <;> split at hk <;> try split at hk
        all_goals simp at hk
      | ok kw =>
        have hkw : ∀ f, kw = some f → ∃ key, some f = a.Parsers key := by
          intro f hf
          rw [hf] at hm
          exact matchKeyword_mem p config parts a 0 hActive _ _ _ hm
        simp only [hm] at hk
        cases hU : p.DisableUnProcessed <;> cases hD : config.HasDefaultParser <;>
          cases hS : a.ParserSequence <;> cases kw <;>
          simp only [hU, hD, hS, if_true, if_false, Bool.false_eq_true, throw, throwThe,
            MonadExceptOf.throw] at hk <;>
          first
            | (cases hk; done)
            | (cases hk
               simp only [List.mem_cons, List.mem_append, List.mem_singleton,
                 List.not_mem_nil, or_false, false_or, or_imp, forall_and, forall_eq,
                 false_imp_iff, implies_true, and_assoc]
               all_goals first
                 | (refine ⟨?_, ?_, ?_⟩ <;> first | exact ⟨_, rfl⟩ | exact hkw _ rfl)
                 | (refine ⟨?_, ?_⟩ <;> first | exact ⟨_, rfl⟩ | exact hkw _ rfl)
                 | exact ⟨_, rfl⟩
                 | exact hkw _ rfl)
    cases hc : commentCandidate p parts config ks with
    | error e => simp [hc] at h
    | ok cs1 =>
      simp only [hc] at h
      have hcs1 : ∀ o, o ∈ cs1 → ∃ key, o = a.Parsers key := by
        unfold commentCandidate at hc
        split at hc
        · simp only [hActive, bind, Except.bind] at hc
          cases hh : a.Parsers "#" with
          | none =>
            simp only [hh, pure, Except.pure] at hc
            cases hc
            exact hks
          | some g =>
            simp only [hh, pure, Except.pure] at hc
            cases hc
            intro o ho
            rcases List.mem_append.mp ho with h1 | h1
            · exact hks o h1
            · simp only [List.mem_singleton] at h1
              exact ⟨"#", by rw [h1, hh]⟩
        · cases hc
          exact hks
      unfold negationCandidate at h
      split at h
      · cases hm : matchKeyword p config parts 1 2 (parts.length - 1) with
        | error e => simp [hm, bind, Except.bind] at h
        | ok kw =>
          simp only [hm, bind, Except.bind] at h
          cases kw with
          | none =>
            simp only [pure, Except.pure] at h
            cases h
            exact hcs1
          | some g =>
            simp only [pure, Except.pure] at h
            cases h
            intro o ho
            rcases List.mem_append.mp ho with h1 | h1
            · exact hcs1 o h1
            · simp only [List.mem_singleton] at h1
              rw [h1]
              exact matchKeyword_mem p config parts a 1 hActive _ _ _ hm
      · cases h
        exact hcs1

/-- Steps that commit no section change leave the Active pointer, the aggregate
and every section instance as they are. -/
theorem quiet_frame (c : Collaborators) (x y : ConfiguredParsers × configParser)
    (h : QuietSteps c x y) :
    y.1.Active = x.1.Active ∧ y.2.Parsers = x.2.Parsers ∧ y.2.heap = x.2.heap := by
  induction h with
  | refl => exact ⟨rfl, rfl, rfl⟩
  | @step config config' p p' line parts previousParts comment _ hstep hquiet ih =>
    obtain ⟨i1, i2, i3⟩ := ih
    rcases ProcessLine_cases c p p' line parts previousParts comment config config' hstep with
      ⟨h1, _, _, _, h2⟩ | ⟨h1, failed, h2⟩ | ⟨failed, f, s, h1, h2⟩
    · subst h1
      rcases h2 with h2 | h2 <;> subst h2 <;> exact ⟨i1, i2, i3⟩
    · subst h1
      subst h2
      exact ⟨i1, i2, i3⟩
    · by_cases hs : s = ""
      · subst hs
        rw [h2, commit_empty] at hstep
        cases hstep
        exact ⟨i1, i2, i3⟩
      · exact absurd ⟨failed, f, s, hs, h1, h2⟩ hquiet

/-- C8: once a `frontend` boundary whose parser exposes the name `name` is
committed, the new instance (reference `r`, registry that of the frontend
constructor) is Active and registered as frontend `name`; and after any
sequence of `ProcessLine` calls none of which commits a section change the
Active section is still that instance, it is still the one the aggregate
returns for frontend `name`, it is unchanged, and every candidate selected for
a line is the result of a lookup in its registry. -/
theorem frontend_lines_stay_in_frontend (c : Collaborators) (parser : ParserId)
    (p p0 : configParser) (config config0 : ConfiguredParsers) (name : String)
    (hname : c.Get p.calls parser = some name)
    (hcommit : commit c parser "frontend" p config = .ok (config0, p0)) :
    ∃ r a, r = p.heap.length ∧ config0.Active = some r ∧
      p0.Parsers Section.Frontends name = some r ∧ p0.deref (some r) = .ok a ∧
      (∃ p1, attachPostComments p config = .ok p1 ∧
        a.Parsers = (c.getFrontendParser p1).Parsers) ∧
      ∀ config' p', QuietSteps c (config0, p0) (config', p') →
        config'.Active = some r ∧ p'.Parsers Section.Frontends name = some r ∧
        p'.deref (some r) = .ok a ∧
        ∀ parts cs, candidates p' parts config' = .ok cs →
          ∀ o, o ∈ cs → ∃ key, o = a.Parsers key := by
  obtain ⟨p1, name', a1, a2, a3, a4, a5, a6⟩ :=
    commit_named c parser p p0 config config0 "frontend" Section.Frontends
      c.getFrontendParser (by simp [namedSections]) hcommit
  rw [hname] at a2
  cases a2
  have hagg : p0.Parsers Section.Frontends name = some p.heap.length := by
    rw [a4]
    simp
  have hderef : p0.deref (some p.heap.length)
      = .ok (if config.ActiveSectionComments.isSome
          then { c.getFrontendParser p1 with PreComments := config.ActiveSectionComments }
          else c.getFrontendParser p1) := by
    unfold configParser.deref
    rw [a5, ← a6]
    simp
  refine ⟨p.heap.length, _, rfl, a3, hagg, hderef, ⟨p1, a1, ?_⟩, ?_⟩
  · split <;> rfl
  · intro config' p' hq
    obtain ⟨q1, q2, q3⟩ := quiet_frame c _ _ hq
    simp only at q1 q2 q3
    have hderef' : p'.deref (some p.heap.length)
        = .ok (if config.ActiveSectionComments.isSome
            then { c.getFrontendParser p1 with PreComments := config.ActiveSectionComments }
            else c.getFrontendParser p1) := by
      rw [← hderef]
      unfold configParser.deref
      rw [q3]
    refine ⟨by rw [q1, a3], by rw [q2, hagg], hderef', ?_⟩
    intro parts cs hcs
    exact candidates_from_registry p' parts config' _ cs (by rw [q1, a3]; exact hderef') hcs

/-- No hook of the demo catalog reports a state on the line `  bind :80`. -/
theorem demoPreParse_bind_quiet (h : List Call) (config : ConfiguredParsers) (f : ParserId)
    (s : String)
    (hok : demo.PreParse h
      (mkCall "  bind :80" ["bind", ":80"] ["frontend", "foo"] "" config f) = .ok s) :
    s = "" := by
  simp only [demo, demoPreParse, mkCall] at hok
  split_ifs at hok <;> first
    | (cases hok; rfl)
    | (simp at *)

/-- C8 at a concrete input: committing `frontend foo` on the demo catalog, and
then the directive line `  bind :80`, which is committed by the `bind` parser
without a section change. -/
theorem frontend_lines_stay_in_frontend_witness :
    demo.Get demoFrontendP.calls 3 = some "foo" ∧
    QuietSteps demo
      (okValue (commit demo 3 "frontend" demoFrontendP (demoCursor false))
        (demoCursor false, demoFrontendP))
      (okValue (ProcessLine demo
          (okValue (commit demo 3 "frontend" demoFrontendP (demoCursor false))
            (demoCursor false, demoFrontendP)).2
          "  bind :80" ["bind", ":80"] ["frontend", "foo"] ""
          (okValue (commit demo 3 "frontend" demoFrontendP (demoCursor false))
            (demoCursor false, demoFrontendP)).1)
        (demoCursor false, demoFrontendP)) ∧
    ∃ r a, r = demoFrontendP.heap.length ∧
      (okValue (commit demo 3 "frontend" demoFrontendP (demoCursor false))
        (demoCursor false, demoFrontendP)).1.Active = some r ∧
      (okValue (commit demo 3 "frontend" demoFrontendP (demoCursor false))
        (demoCursor false, demoFrontendP)).2.Parsers Section.Frontends "foo" = some r ∧
      (okValue (commit demo 3 "frontend" demoFrontendP (demoCursor false))
        (demoCursor false, demoFrontendP)).2.deref (some r) = .ok a ∧
      (∃ p1, attachPostComments demoFrontendP (demoCursor false) = .ok p1 ∧
        a.Parsers = (demo.getFrontendParser p1).Parsers) ∧
      ∀ config' p',
        QuietSteps demo
          (okValue (commit demo 3 "frontend" demoFrontendP (demoCursor false))
            (demoCursor false, demoFrontendP)) (config', p') →
        config'.Active = some r ∧ p'.Parsers Section.Frontends "foo" = some r ∧
        p'.deref (some r) = .ok a ∧
        ∀ parts cs, candidates p' parts config' = .ok cs →
          ∀ o, o ∈ cs → ∃ key, o = a.Parsers key :=
  ⟨rfl,
    QuietSteps.step "  bind :80" ["bind", ":80"] ["frontend", "foo"] ""
      (QuietSteps.refl _) rfl
      (by
        unfold commitsSectionChange
        intro hc
        obtain ⟨failed, f, s, hs, hok, _⟩ := hc
        exact hs (demoPreParse_bind_quiet _ _ f s hok)),
    frontend_lines_stay_in_frontend demo 3 demoFrontendP
      (okValue (commit demo 3 "frontend" demoFrontendP (demoCursor false))
        (demoCursor false, demoFrontendP)).2
      (demoCursor false)
      (okValue (commit demo 3 "frontend" demoFrontendP (demoCursor false))
        (demoCursor false, demoFrontendP)).1
      "foo" rfl rfl⟩

/-- C6, amended: for a token list that starts with `no`, with no default parser
forced active, let `kw` be the keyword candidate of the full list and `neg` the
registry entry of the shortest prefix `parts[1:i]`, `i >= 2`, that is a key.
When no keyword prefix of the full list matched, the retry is made and adds
`neg` (if any); with passthrough enabled the retry is made only then, so after
a keyword match the slice is `[catch-all, kw]`. (Left out: passthrough disabled
after a keyword match.) -/
theorem negation_retry (p : configParser) (config : ConfiguredParsers)
    (parts : List String) (a : Parsers) (ts : List String)
    (hActive : p.deref config.Active = .ok a) (hDefault : config.HasDefaultParser = false)
    (hparts : parts = "no" :: ts) :
    ∃ kw neg : Option ParserId,
      matchKeyword p config parts 0 1 parts.length = .ok kw ∧
      (∀ f, neg = some f ↔ ∃ i, 2 ≤ i ∧ i ≤ parts.length ∧
        a.Parsers (Join ((parts.take i).drop 1) " ") = some f ∧
        ∀ j, 2 ≤ j → j < i → a.Parsers (Join ((parts.take j).drop 1) " ") = none) ∧
      (p.DisableUnProcessed = false ∨ kw = none →
        candidates p parts config
          = .ok ((if p.DisableUnProcessed then [] else [a.Parsers ""]) ++ kw.toList.map some
              ++ (if kw = none then neg.toList.map some else []))) := by
  obtain ⟨kw, h1, _, _⟩ := matchKeyword_first p config parts a 0 hActive hDefault parts.length 1
  obtain ⟨neg, g1, g2, _⟩ :=
    matchKeyword_first p config parts a 1 hActive hDefault (parts.length - 1) 2
  have hlen : 2 + (parts.length - 1) = parts.length + 1 := by
    rw [hparts]
    simp
    omega
  refine ⟨kw, neg, h1, ?_, ?_⟩
  · intro f
    rw [g2 f]
    constructor
    · rintro ⟨k, k1, k2, k3, k4⟩
      exact ⟨k, k1, by omega, k3, k4⟩
    · rintro ⟨k, k1, k2, k3, k4⟩
      exact ⟨k, k1, by omega, k3, k4⟩
  · intro hcase
    have hk : keywordCandidates p parts config
        = .ok ((if p.DisableUnProcessed then [] else [a.Parsers ""]) ++ kw.toList.map some) := by
      unfold keywordCandidates
      cases hU : p.DisableUnProcessed <;> cases kw <;>
        simp [hU, hDefault, hActive, h1, bind, Except.bind, pure, Except.pure]
    have hhead : parts.head? = some "no" := by rw [hparts]; rfl
    have hpos : 0 < parts.length := by rw [hparts]; simp
    unfold candidates
    simp only [hk, bind, Except.bind]
    unfold commentCandidate
    have hnc : ¬ (((if p.DisableUnProcessed then [] else [a.Parsers ""])
        ++ kw.toList.map some).length < 2 ∧ parts.length = 1 ∧ parts.head? = some "") := by
      rintro ⟨_, _, h3⟩
      rw [hhead] at h3
      exact absurd h3 (by decide)
    rw [if_neg hnc]
    simp only [pure, Except.pure]
    unfold negationCandidate
    cases hU : p.DisableUnProcessed <;> cases kw <;> cases neg <;>
      simp [hU, hhead, hpos, g1, bind, Except.bind, pure, Except.pure] at hcase ⊢

/-- C6 amended, at a concrete input: on the demo registry with passthrough
enabled the tokens `no option httplog` match no keyword, and the retry adds the
`option httplog` parser `9` after the catch-all. -/
theorem negation_retry_witness :
    candidates (demoP false) ["no", "option", "httplog"] (demoCursor false)
      = .ok [some 0, some 9] ∧
    ∃ kw neg : Option ParserId,
      matchKeyword (demoP false) (demoCursor false) ["no", "option", "httplog"] 0 1
        ["no", "option", "httplog"].length = .ok kw ∧
      (∀ f, neg = some f ↔ ∃ i, 2 ≤ i ∧ i ≤ ["no", "option", "httplog"].length ∧
        (demoSection true).Parsers (Join ((["no", "option", "httplog"].take i).drop 1) " ")
          = some f ∧
        ∀ j, 2 ≤ j → j < i →
          (demoSection true).Parsers (Join ((["no", "option", "httplog"].take j).drop 1) " ")
            = none) ∧
      ((demoP false).DisableUnProcessed = false ∨ kw = none →
        candidates (demoP false) ["no", "option", "httplog"] (demoCursor false)
          = .ok ((if (demoP false).DisableUnProcessed then []
                else [(demoSection true).Parsers ""]) ++ kw.toList.map some
              ++ (if kw = none then neg.toList.map some else []))) :=
  ⟨rfl,
    negation_retry (demoP false) (demoCursor false) ["no", "option", "httplog"]
      (demoSection true) ["option", "httplog"] rfl rfl rfl⟩

/-! ## Comment attachment -/

/-- A dispatched line whose slice is `earlier ++ [f] ++ later`, the hooks of
`later` failing and the hook of `f` succeeding with `s`, ends in the commit
step of `f`. -/
theorem ProcessLine_commit (c : Collaborators) (p : configParser) (line : String)
    (parts previousParts : List String) (comment : String) (config : ConfiguredParsers)
    (earlier : List (Option ParserId)) (f : ParserId) (later : List ParserId) (s : String)
    (hdisp : config.State = "" ∨ ∃ t ts, parts = t :: ts ∧ ¬ queuedComment t comment)
    (hcand : candidates p parts config = .ok (earlier ++ some f :: later.map some))
    (hfail : ∀ h g, g ∈ later →
      ∃ e, c.PreParse h (mkCall line parts previousParts comment config g) = .error e)
    (hok : c.PreParse
        (p.calls ++ later.reverse.map (mkCall line parts previousParts comment config))
        (mkCall line parts previousParts comment config f) = .ok s) :
    ProcessLine c p line parts previousParts comment config
      = commit c f s
          (p.logged (later.reverse.map (mkCall line parts previousParts comment config)
            ++ [mkCall line parts previousParts comment config f])) config := by
  rw [ProcessLine_eq_dispatch c p line parts previousParts comment config hdisp]
  unfold dispatch
  simp only [hcand, bind, Except.bind]
  have key := tryParsers_commit c line parts previousParts comment config f
    earlier.reverse s later.reverse p
    (fun h g hg => hfail h g (List.mem_reverse.mp hg)) hok
  rw [← key]
  congr 1
  simp [List.map_reverse]

/-- C11: when a dispatched line is committed by the candidate `f` (the hooks of
the later-added candidates failing), the hook of `f` is invoked with the whole
pending directive-level queue as its `preComments`; in every cursor
`ProcessLine` returns that queue is nil and the invocation of `f` is the last
one recorded, whether or not a state was reported; and when no state is
reported (`s` empty) `ProcessLine` returns the cursor with only that queue
cleared, so the section-level queue is as it was. -/
theorem committed_hook_takes_pending_comments (c : Collaborators) (p : configParser)
    (line : String) (parts previousParts : List String) (comment : String)
    (config : ConfiguredParsers) (earlier : List (Option ParserId)) (f : ParserId)
    (later : List ParserId) (s : String)
    (hdisp : config.State = "" ∨ ∃ t ts, parts = t :: ts ∧ ¬ queuedComment t comment)
    (hcand : candidates p parts config = .ok (earlier ++ some f :: later.map some))
    (hfail : ∀ h g, g ∈ later →
      ∃ e, c.PreParse h (mkCall line parts previousParts comment config g) = .error e)
    (hok : c.PreParse
        (p.calls ++ later.reverse.map (mkCall line parts previousParts comment config))
        (mkCall line parts previousParts comment config f) = .ok s) :
    (mkCall line parts previousParts comment config f).preComments = config.ActiveComments ∧
    (∀ config' p', ProcessLine c p line parts previousParts comment config = .ok (config', p') →
      config'.ActiveComments = none ∧
      p'.calls.getLast? = some (mkCall line parts previousParts comment config f)) ∧
    (s = "" →
      ProcessLine c p line parts previousParts comment config
        = .ok ({ config with ActiveComments := none },
            p.logged (later.reverse.map (mkCall line parts previousParts comment config)
              ++ [mkCall line parts previousParts comment config f]))) := by
  have hmain := ProcessLine_commit c p line parts previousParts comment config earlier f later s
    hdisp hcand hfail hok
  refine ⟨rfl, ?_, ?_⟩
  · intro config' p' h
    rw [hmain] at h
    refine ⟨(commit_queues _ _ _ _ _ _ _ h).1, ?_⟩
    rw [commit_calls _ _ _ _ _ _ _ h]
    simp [configParser.logged]
  · intro hs
    rw [hmain, hs, commit_empty]

/-- C11 at a concrete input: in the `global` section of the demo catalog, with
`a` pending at directive level and `b` at section level, the line `  mode http`
is committed by the `mode` parser `6`. -/
theorem committed_hook_takes_pending_comments_witness :
    candidates (demoP false) ["mode", "http"] demoPendingCursor
      = .ok ([some 0] ++ some 6 :: [].map some) ∧
    observe (ProcessLine demo (demoP false) "  mode http" ["mode", "http"] ["global"] ""
        demoPendingCursor)
      = .ok ("global", none, some ["b"], some 2, false, [(6, "  mode http")],
          [(none, none), (none, none), (none, none)]) ∧
    (mkCall "  mode http" ["mode", "http"] ["global"] "" demoPendingCursor 6).preComments
      = some ["a"] ∧
    (∀ config' p',
      ProcessLine demo (demoP false) "  mode http" ["mode", "http"] ["global"] ""
        demoPendingCursor = .ok (config', p') →
      config'.ActiveComments = none ∧
      p'.calls.getLast?
        = some (mkCall "  mode http" ["mode", "http"] ["global"] "" demoPendingCursor 6)) ∧
    ("" = "" →
      ProcessLine demo (demoP false) "  mode http" ["mode", "http"] ["global"] ""
          demoPendingCursor
        = .ok ({ demoPendingCursor with ActiveComments := none },
            (demoP false).logged ([].reverse.map
                (mkCall "  mode http" ["mode", "http"] ["global"] "" demoPendingCursor)
              ++ [mkCall "  mode http" ["mode", "http"] ["global"] "" demoPendingCursor 6]))) :=
  ⟨rfl, rfl,
    committed_hook_takes_pending_comments demo (demoP false) "  mode http" ["mode", "http"]
      ["global"] "" demoPendingCursor [some 0] 6 [] ""
      (Or.inr ⟨"mode", ["http"], rfl, by decide⟩) rfl
      (fun _ g hg => by cases hg) rfl⟩

/-- The switch on the new state only appends to the heap: every section
instance that existed stays as it is. -/
theorem switchActive_heap (c : Collaborators) (parser : ParserId) (p p' : configParser)
    (config config' : ConfiguredParsers)
    (h : switchActive c parser p config = .ok (config', p')) :
    ∃ ext, p'.heap = p.heap ++ ext := by
  unfold switchActive at h
  by_cases h0 : config.State = ""
  · rw [if_pos h0] at h
    cases h
    exact ⟨[], by simp⟩
  rw [if_neg h0] at h
  by_cases h1 : config.State = "defaults"
  · rw [if_pos h1] at h
    cases h
    exact ⟨[], by simp⟩
  rw [if_neg h1] at h
  by_cases h2 : config.State = "global"
  · rw [if_pos h2] at h
    cases h
    exact ⟨[], by simp⟩
  rw [if_neg h2] at h
  by_cases h3 : config.State = "frontend"
  · rw [if_pos h3] at h
    simp only [bind, Except.bind] at h
    split at h
    · cases h
    · rename_i x hx
      obtain ⟨r, q⟩ := x
      cases h
      obtain ⟨name, _, _, e⟩ := enterSection_ok _ _ _ _ _ _ _ hx
      rw [e]
      exact ⟨_, rfl⟩
  rw [if_neg h3] at h
  by_cases h4 : config.State = "backend"
  · rw [if_pos h4] at h
    simp only [bind, Except.bind] at h
    split at h
    · cases h
    · rename_i x hx
      obtain ⟨r, q⟩ := x
      cases h
      obtain ⟨name, _, _, e⟩ := enterSection_ok _ _ _ _ _ _ _ hx
      rw [e]
      exact ⟨_, rfl⟩
  rw [if_neg h4] at h
  by_cases h5 : config.State = "listen"
  · rw [if_pos h5] at h
    simp only [bind, Except.bind] at h
    split at h
    · cases h
    · rename_i x hx
      obtain ⟨r, q⟩ := x
      cases h
      obtain ⟨name, _, _, e⟩ := enterSection_ok _ _ _ _ _ _ _ hx
      rw [e]
      exact ⟨_, rfl⟩
  rw [if_neg h5] at h
  by_cases h6 : config.State = "resolvers"
  · rw [if_pos h6] at h
    simp only [bind, Except.bind] at h
    split at h
    · cases h
    · rename_i x hx
      obtain ⟨r, q⟩ := x
      cases h
      obtain ⟨name, _, _, e⟩ := enterSection_ok _ _ _ _ _ _ _ hx
      rw [e]
      exact ⟨_, rfl⟩
  rw [if_neg h6] at h
  by_cases h7 : config.State = "userlist"
  · rw [if_pos h7] at h
    simp only [bind, Except.bind] at h
    split at h
    · cases h
    · rename_i x hx
      obtain ⟨r, q⟩ := x
      cases h
      obtain ⟨name, _, _, e⟩ := enterSection_ok _ _ _ _ _ _ _ hx
      rw [e]
      exact ⟨_, rfl⟩
  rw [if_neg h7] at h
  by_cases h8 : config.State = "peers"
  · rw [if_pos h8] at h
    simp only [bind, Except.bind] at h
    split at h
    · cases h
    · rename_i x hx
      obtain ⟨r, q⟩ := x
      cases h
      obtain ⟨name, _, _, e⟩ := enterSection_ok _ _ _ _ _ _ _ hx
      rw [e]
      exact ⟨_, rfl⟩
  rw [if_neg h8] at h
  by_cases h9 : config.State = "mailers"
  · rw [if_pos h9] at h
    simp only [bind, Except.bind] at h
    split at h
    · cases h
    · rename_i x hx
      obtain ⟨r, q⟩ := x
      cases h
      obtain ⟨name, _, _, e⟩ := enterSection_ok _ _ _ _ _ _ _ hx
      rw [e]
      exact ⟨_, rfl⟩
  rw [if_neg h9] at h
  by_cases h10 : config.State = "cache"
  · rw [if_pos h10] at h
    simp only [bind, Except.bind] at h
    split at h
    · cases h
    · rename_i x hx
      obtain ⟨r, q⟩ := x
      cases h
      obtain ⟨name, _, _, e⟩ := enterSection_ok _ _ _ _ _ _ _ hx
      rw [e]
      exact ⟨_, rfl⟩
  rw [if_neg h10] at h
  by_cases h11 : config.State = "program"
  · rw [if_pos h11] at h
    simp only [bind, Except.bind] at h
    split at h
    · cases h
    · rename_i x hx
      obtain ⟨r, q⟩ := x
      cases h
      obtain ⟨name, _, _, e⟩ := enterSection_ok _ _ _ _ _ _ _ hx
      rw [e]
      exact ⟨_, rfl⟩
  rw [if_neg h11] at h
  by_cases h12 : config.State = "http-errors"
  · rw [if_pos h12] at h
    simp only [bind, Except.bind] at h
    split at h
    · cases h
    · rename_i x hx
      obtain ⟨r, q⟩ := x
      cases h
      obtain ⟨name, _, _, e⟩ := enterSection_ok _ _ _ _ _ _ _ hx
      rw [e]
      exact ⟨_, rfl⟩
  rw [if_neg h12] at h
  by_cases h13 : config.State = "ring"
  · rw [if_pos h13] at h
    simp only [bind, Except.bind] at h
    split at h
    · cases h
    · rename_i x hx
      obtain ⟨r, q⟩ := x
      cases h
      obtain ⟨name, _, _, e⟩ := enterSection_ok _ _ _ _ _ _ _ hx
      rw [e]
      exact ⟨_, rfl⟩
  rw [if_neg h13] at h
  by_cases h14 : config.State = "snippet_beg"
  · rw [if_pos h14] at h
    cases h
    exact ⟨_, rfl⟩
  rw [if_neg h14] at h
  by_cases h15 : config.State = "snippet_end"
  · rw [if_pos h15] at h
    cases h
    exact ⟨[], by simp⟩
  rw [if_neg h15] at h
  cases h
  exact ⟨[], by simp⟩

/-- A successful write through a pointer: the pointer is not nil, the cell
exists, and the heap afterwards is the old one with that cell updated. -/
theorem assign_ok (p p' : configParser) (f : Parsers → Parsers) (o : Option Ref)
    (h : p.assign f o = .ok p') :
    ∃ r a, o = some r ∧ p.heap[r]? = some a ∧ p'.heap = p.heap.set r (f a) := by
  cases o with
  | none => simp [configParser.assign] at h
  | some r =>
    unfold configParser.assign at h
    cases hh : p.heap[r]? with
    | none => simp [hh] at h
    | some a =>
      simp only [hh] at h
      cases h
      exact ⟨r, a, rfl, hh, rfl⟩

/-- Reading a cell of a heap in which the cell `r` was overwritten. -/
theorem getElem?_set_cases (l : List Parsers) (r k : Nat) (a b v : Parsers)
    (hr : l[r]? = some a) (hk : l[k]? = some b) :
    (l.set r v)[k]? = some (if r = k then v else b) := by
  have hlt : r < l.length := by
    rcases Nat.lt_or_ge r l.length with h | h
    · exact h
    · rw [List.getElem?_eq_none h] at hr
      cases hr
  rw [List.getElem?_set]
  by_cases e : r = k
  · rw [if_pos e, if_pos hlt, if_pos e]
  · rw [if_neg e, if_neg e, hk]

/-- Lines 163-165: pending directive-level comments end up as the
`PostComments` of the outgoing Active section. -/
theorem attachPostComments_ok (p p1 : configParser) (config : ConfiguredParsers)
    (h : attachPostComments p config = .ok p1) :
    (∀ l, config.ActiveComments = some l →
      ∃ (r : Ref) (a : Parsers), config.Active = some r ∧ p1.heap[r]? = some a ∧
        a.PostComments = some l) := by
  intro l hl
  unfold attachPostComments at h
  rw [hl] at h
  simp only [Option.isSome_some, if_true] at h
  obtain ⟨r, a, h1, h2, h3⟩ := assign_ok _ _ _ _ h
  refine ⟨r, { a with PostComments := some l }, h1, ?_, rfl⟩
  have hg := getElem?_set_cases p.heap r r a a { a with PostComments := some l } h2 h2
  rw [if_pos rfl] at hg
  rw [h3]
  exact hg

/-- Lines 295-298: pending section-level comments end up as the `PreComments`
of the Active section and the queue is cleared; no `PostComments` changes. -/
theorem attachPreComments_ok (p p' : configParser) (config config' : ConfiguredParsers)
    (h : attachPreComments p config = .ok (config', p')) :
    config'.Active = config.Active ∧
    (∀ (r : Ref) (a : Parsers), p.heap[r]? = some a →
      ∃ a' : Parsers, p'.heap[r]? = some a' ∧ a'.PostComments = a.PostComments) ∧
    (∀ l, config.ActiveSectionComments = some l →
      ∃ a : Parsers, p'.deref config.Active = .ok a ∧ a.PreComments = some l ∧
        config'.ActiveSectionComments = none) := by
  unfold attachPreComments at h
  cases hsc : config.ActiveSectionComments with
  | none =>
    rw [hsc] at h
    simp only [Option.isSome_none, Bool.false_eq_true, if_false, pure, Except.pure] at h
    cases h
    refine ⟨rfl, fun r a hr => ⟨a, hr, rfl⟩, ?_⟩
    intro l hl
    cases hl
  | some sc =>
    rw [hsc] at h
    simp only [Option.isSome_some, if_true, bind, Except.bind] at h
    cases ha : p.assign (fun a => { a with PreComments := some sc }) config.Active with
    | error e => simp [ha] at h
    | ok p3 =>
      simp only [ha, pure, Except.pure] at h
      cases h
      obtain ⟨r, a, h1, h2, h3⟩ := assign_ok _ _ _ _ ha
      refine ⟨rfl, ?_, ?_⟩
      · intro k b hk
        refine ⟨if r = k then { a with PreComments := some sc } else b, ?_, ?_⟩
        · rw [h3]
          exact getElem?_set_cases p.heap r k a b _ h2 hk
        · by_cases e : r = k
          · subst e
            rw [h2] at hk
            cases hk
            simp
          · simp [e]
      · intro l hl
        cases hl
        refine ⟨{ a with PreComments := some sc }, ?_, rfl, rfl⟩
        have hg := getElem?_set_cases p.heap r r a a { a with PreComments := some sc } h2 h2
        rw [if_pos rfl] at hg
        rw [h1]
        unfold configParser.deref
        simp only [h3, hg]

/-- C12: on every committed section transition (the committed hook reported a
non-empty state), pending directive-level comments are the `PostComments` of
the outgoing Active section afterwards, and pending section-level comments are
the `PreComments` of the incoming Active section, the section-level queue
being nil in the cursor returned. -/
theorem transition_attaches_comments (c : Collaborators) (parser : ParserId) (s : String)
    (p p' : configParser) (config config' : ConfiguredParsers)
    (hs : s ≠ "")
    (h : commit c parser s p config = .ok (config', p')) :
    (∀ l, config.ActiveComments = some l →
      ∃ r a, config.Active = some r ∧ p'.heap[r]? = some a ∧ a.PostComments = some l) ∧
    (∀ l, config.ActiveSectionComments = some l →
      ∃ a, p'.deref config'.Active = .ok a ∧ a.PreComments = some l ∧
        config'.ActiveSectionComments = none) := by
  unfold commit at h
  simp only [ne_eq, hs, not_false_eq_true, if_true, bind, Except.bind] at h
  cases hcs : changeState c parser s p config with
  | error e => simp [hcs] at h
  | ok x =>
    obtain ⟨config3, p3⟩ := x
    simp only [hcs, pure, Except.pure] at h
    cases h
    unfold changeState at hcs
    cases h1 : attachPostComments p config with
    | error e => simp [h1, bind, Except.bind] at hcs
    | ok p1 =>
      simp only [h1, bind, Except.bind] at hcs
      cases h2 : switchActive c parser p1 { config with State := s } with
      | error e => simp [h2] at hcs
      | ok y =>
        obtain ⟨config2, p2⟩ := y
        simp only [h2] at hcs
        obtain ⟨ext, hext⟩ := switchActive_heap _ _ _ _ _ _ h2
        obtain ⟨_, q2⟩ := switchActive_queues _ _ _ _ _ _ h2
        obtain ⟨e1, e2, e3⟩ := attachPreComments_ok _ _ _ _ hcs
        constructor
        · intro l hl
          obtain ⟨r, a, a1, a2, a3⟩ := attachPostComments_ok _ _ _ h1 l hl
          have hlt : r < p1.heap.length := by
            rcases Nat.lt_or_ge r p1.heap.length with hh | hh
            · exact hh
            · rw [List.getElem?_eq_none hh] at a2
              cases a2
          have a4 : p2.heap[r]? = some a := by
            rw [hext, List.getElem?_append_left hlt]
            exact a2
          obtain ⟨a', b1, b2⟩ := e2 r a a4
          exact ⟨r, a', a1, b1, by rw [b2, a3]⟩
        · intro l hl
          have hl2 : config2.ActiveSectionComments = some l := by
            rw [q2]
            exact hl
          obtain ⟨a, b1, b2, b3⟩ := e3 l hl2
          refine ⟨a, ?_, b2, b3⟩
          simpa [e1] using b1

/-- C12 at a concrete input: committing `frontend foo` from the `global`
section of the demo catalog with `a` pending at directive level and `b` at
section level: `a` goes to the `PostComments` of `global` (reference `2`) and
`b` to the `PreComments` of the new frontend (reference `3`). -/
theorem transition_attaches_comments_witness :
    observe (commit demo 3 "frontend" demoFrontendP demoPendingCursor)
      = .ok ("frontend", none, none, some 3, false, [(3, "frontend foo")],
          [(none, none), (none, none), (none, some ["a"]), (some ["b"], none)]) ∧
    (∀ l, demoPendingCursor.ActiveComments = some l →
      ∃ r a, demoPendingCursor.Active = some r ∧
        (okValue (commit demo 3 "frontend" demoFrontendP demoPendingCursor)
          (demoPendingCursor, demoFrontendP)).2.heap[r]? = some a ∧
        a.PostComments = some l) ∧
    (∀ l, demoPendingCursor.ActiveSectionComments = some l →
      ∃ a, (okValue (commit demo 3 "frontend" demoFrontendP demoPendingCursor)
          (demoPendingCursor, demoFrontendP)).2.deref
          (okValue (commit demo 3 "frontend" demoFrontendP demoPendingCursor)
            (demoPendingCursor, demoFrontendP)).1.Active = .ok a ∧
        a.PreComments = some l ∧
        (okValue (commit demo 3 "frontend" demoFrontendP demoPendingCursor)
          (demoPendingCursor, demoFrontendP)).1.ActiveSectionComments = none) :=
  ⟨rfl,
    transition_attaches_comments demo 3 "frontend" demoFrontendP
      (okValue (commit demo 3 "frontend" demoFrontendP demoPendingCursor)
        (demoPendingCursor, demoFrontendP)).2
      demoPendingCursor
      (okValue (commit demo 3 "frontend" demoFrontendP demoPendingCursor)
        (demoPendingCursor, demoFrontendP)).1
      (by decide) rfl⟩

/-- A readable pointer is not nil and points into the heap. -/
theorem deref_ok (p : configParser) (o : Option Ref) (a : Parsers)
    (h : p.deref o = .ok a) : ∃ r, o = some r ∧ p.heap[r]? = some a := by
  cases o with
  | none => simp [configParser.deref] at h
  | some r =>
    unfold configParser.deref at h
    cases hh : p.heap[r]? with
    | none => simp [hh] at h
    | some b =>
      simp only [hh] at h
      cases h
      exact ⟨r, rfl, hh⟩

/-- A write through a readable pointer succeeds, and reading the pointer
afterwards gives the updated cell. -/
theorem assign_deref (p : configParser) (f : Parsers → Parsers) (o : Option Ref) (a : Parsers)
    (h : p.deref o = .ok a) :
    ∃ p', p.assign f o = .ok p' ∧ p'.deref o = .ok (f a) := by
  obtain ⟨r, rfl, hr⟩ := deref_ok p o a h
  refine ⟨{ p with heap := p.heap.set r (f a) }, ?_, ?_⟩
  · simp [configParser.assign, hr]
  · have hg := getElem?_set_cases p.heap r r a a (f a) hr hr
    rw [if_pos rfl] at hg
    unfold configParser.deref
    simp only [hg]

/-- Lines 99-104 of `Process` on a readable Active section: the flush returns,
and the `PostComments` of the Active section are the pending directive-level
comments (or, when none are pending, what was there) followed by the pending
section-level comments. -/
theorem flushComments_ok (parsers : ConfiguredParsers) (p : configParser) (a : Parsers)
    (hActive : p.deref parsers.Active = .ok a) :
    ∃ p' a', flushComments parsers p = .ok p' ∧ p'.deref parsers.Active = .ok a' ∧
      a'.PostComments = (match parsers.ActiveSectionComments with
        | some sc =>
          appendAll (if parsers.ActiveComments.isSome then parsers.ActiveComments
            else a.PostComments) sc
        | none =>
          if parsers.ActiveComments.isSome then parsers.ActiveComments else a.PostComments) := by
  unfold flushComments
  cases hac : parsers.ActiveComments with
  | none =>
    cases hsc : parsers.ActiveSectionComments with
    | none =>
      exact ⟨p, a, by simp [bind, Except.bind, pure, Except.pure], hActive, by simp⟩
    | some sc =>
      obtain ⟨p', h1, h2⟩ := assign_deref p
        (fun a => { a with PostComments := appendAll a.PostComments sc }) _ a hActive
      exact ⟨p', _, by simp [bind, Except.bind, pure, Except.pure, h1], h2, by simp⟩
  | some ac =>
    obtain ⟨p1, h1, h2⟩ := assign_deref p
      (fun a => { a with PostComments := some ac }) _ a hActive
    cases hsc : parsers.ActiveSectionComments with
    | none =>
      exact ⟨p1, _, by simp [bind, Except.bind, pure, Except.pure, h1], h2, by simp⟩
    | some sc =>
      obtain ⟨p2, g1, g2⟩ := assign_deref p1
        (fun a => { a with PostComments := appendAll a.PostComments sc }) _ _ h2
      exact ⟨p2, _, by simp [bind, Except.bind, pure, Except.pure, h1, g1], g2, by simp⟩

/-- C13: when the loop of `Process` ends with cursor and parser `st` and the
last Active section is readable, `Process` returns, and the `PostComments` of
that section are then: the pending directive-level comments (which replace the
earlier `PostComments` when that queue is non-nil) followed by the pending
section-level comments. Every comment pending in either queue is therefore in
`PostComments`, the directive-level ones first. -/
theorem pending_comments_flushed (c : Collaborators) (p : configParser) (reader : String)
    (st : LoopState) (a : Parsers)
    (hrun : processLines c
        { parsers := initialCursor c (c.Init p), previousLine := [], p := c.Init p }
        (ReadString [] reader.data) = .ok st)
    (hActive : st.p.deref st.parsers.Active = .ok a) :
    ∃ p' a', Process c p reader = .ok (st.parsers, p') ∧
      p'.deref st.parsers.Active = .ok a' ∧
      (∃ earlier, a'.PostComments.getD []
        = earlier ++ st.parsers.ActiveComments.getD []
            ++ st.parsers.ActiveSectionComments.getD []) ∧
      (∀ x, x ∈ st.parsers.ActiveComments.getD [] ++ st.parsers.ActiveSectionComments.getD [] →
        x ∈ a'.PostComments.getD []) ∧
      (st.parsers.ActiveComments.isSome →
        a'.PostComments.getD []
          = st.parsers.ActiveComments.getD [] ++ st.parsers.ActiveSectionComments.getD []) := by
  obtain ⟨p', a', h1, h2, h3⟩ := flushComments_ok st.parsers st.p a hActive
  have hshape : (∃ earlier, a'.PostComments.getD []
        = earlier ++ st.parsers.ActiveComments.getD []
            ++ st.parsers.ActiveSectionComments.getD []) ∧
      (st.parsers.ActiveComments.isSome →
        a'.PostComments.getD []
          = st.parsers.ActiveComments.getD [] ++ st.parsers.ActiveSectionComments.getD []) := by
    rw [h3]
    cases hac : st.parsers.ActiveComments with
    | none =>
      cases hsc : st.parsers.ActiveSectionComments with
      | none => exact ⟨⟨a.PostComments.getD [], by simp⟩, by simp⟩
      | some sc =>
        refine ⟨⟨a.PostComments.getD [], ?_⟩, by simp⟩
        cases hpc : a.PostComments with
        | none => cases sc <;> simp [appendAll]
        | some l => simp [appendAll]
    | some ac =>
      cases hsc : st.parsers.ActiveSectionComments with
      | none => exact ⟨⟨[], by simp⟩, by simp⟩
      | some sc => exact ⟨⟨[], by simp [appendAll]⟩, by simp [appendAll]⟩
  refine ⟨p', a', ?_, h2, hshape.1, ?_, hshape.2⟩
  · unfold Process
    simp only [hrun, h1, bind, Except.bind, pure, Except.pure]
  · intro x hx
    obtain ⟨earlier, he⟩ := hshape.1
    rw [he, List.append_assoc]
    exact List.mem_append_right _ hx

/-- C13 at a concrete input: `global`, an indented comment and an unindented
comment, then end of input; both comments end in the `PostComments` of the
`global` section (reference `2`), the indented one first. -/
theorem pending_comments_flushed_witness :
    observe (Process demo (demoParser false) "global\n  # c1\n# c2\n")
      = .ok ("global", some ["c1"], some ["c2"], some 2, false, [(2, "global")],
          [(none, none), (none, none), (none, some ["c1", "c2"])]) ∧
    ∃ p' a', Process demo (demoParser false) "global\n  # c1\n# c2\n"
        = .ok ((okLoop (processLines demo
            { parsers := initialCursor demo (demo.Init (demoParser false)), previousLine := [],
              p := demo.Init (demoParser false) }
            (ReadString [] "global\n  # c1\n# c2\n".data))).parsers, p') ∧
      p'.deref (okLoop (processLines demo
            { parsers := initialCursor demo (demo.Init (demoParser false)), previousLine := [],
              p := demo.Init (demoParser false) }
            (ReadString [] "global\n  # c1\n# c2\n".data))).parsers.Active = .ok a' ∧
      (∃ earlier, a'.PostComments.getD []
        = earlier ++ (okLoop (processLines demo
            { parsers := initialCursor demo (demo.Init (demoParser false)), previousLine := [],
              p := demo.Init (demoParser false) }
            (ReadString [] "global\n  # c1\n# c2\n".data))).parsers.ActiveComments.getD []
          ++ (okLoop (processLines demo
            { parsers := initialCursor demo (demo.Init (demoParser false)), previousLine := [],
              p := demo.Init (demoParser false) }
            (ReadString [] "global\n  # c1\n# c2\n".data))).parsers.ActiveSectionComments.getD
              []) ∧
      (∀ x, x ∈ (okLoop (processLines demo
            { parsers := initialCursor demo (demo.Init (demoParser false)), previousLine := [],
              p := demo.Init (demoParser false) }
            (ReadString [] "global\n  # c1\n# c2\n".data))).parsers.ActiveComments.getD []
          ++ (okLoop (processLines demo
            { parsers := initialCursor demo (demo.Init (demoParser false)), previousLine := [],
              p := demo.Init (demoParser false) }
            (ReadString [] "global\n  # c1\n# c2\n".data))).parsers.ActiveSectionComments.getD
              [] →
        x ∈ a'.PostComments.getD []) ∧
      ((okLoop (processLines demo
            { parsers := initialCursor demo (demo.Init (demoParser false)), previousLine := [],
              p := demo.Init (demoParser false) }
            (ReadString [] "global\n  # c1\n# c2\n".data))).parsers.ActiveComments.isSome →
        a'.PostComments.getD []
          = (okLoop (processLines demo
            { parsers := initialCursor demo (demo.Init (demoParser false)), previousLine := [],
              p := demo.Init (demoParser false) }
            (ReadString [] "global\n  # c1\n# c2\n".data))).parsers.ActiveComments.getD []
          ++ (okLoop (processLines demo
            { parsers := initialCursor demo (demo.Init (demoParser false)), previousLine := [],
              p := demo.Init (demoParser false) }
            (ReadString [] "global\n  # c1\n# c2\n".data))).parsers.ActiveSectionComments.getD
              []) :=
  ⟨rfl,
    pending_comments_flushed demo (demoParser false) "global\n  # c1\n# c2\n"
      (okLoop (processLines demo
        { parsers := initialCursor demo (demo.Init (demoParser false)), previousLine := [],
          p := demo.Init (demoParser false) }
        (ReadString [] "global\n  # c1\n# c2\n".data)))
      (demoSection true) rfl rfl⟩

/-! ## The loop of `Process` -/

/-- C14, as stated, fails where the markers overlap. A line that starts with the
content-hash marker and contains `config-snippet` is handed to `ProcessLine` as
`config-snippet`, not as `# _md5hash`; a line that starts with the version
marker and contains `config-snippet` is handed on as `# _version`. -/
theorem overlapping_markers_take_first_case :
    observeParts (Process demo (demoParser false) "# _md5hash config-snippet\n")
      = .ok [(7, ["config-snippet"])] ∧
    observeParts (Process demo (demoParser false) "# _version config-snippet\n")
      = .ok [(0, ["# _version"])] :=
  ⟨rfl, rfl⟩

/-- C14, amended: a non-empty line for which the tokenizer returns no field and
a non-empty comment is handed to `ProcessLine` with exactly one synthetic
field, chosen by the first case that applies: `# _version` when the line starts
with `# _version`; otherwise `config-snippet` when the line contains
`config-snippet`; otherwise `# _md5hash` when the line starts with
`# _md5hash`; otherwise the empty string. -/
theorem comment_line_synthetic_field (c : Collaborators) (st : LoopState) (raw comment : String)
    (hline : Trim raw ['\n'] ≠ "")
    (htok : c.StringSplitWithCommentIgnoreEmpty (Trim raw ['\n']) = ([], comment))
    (hcomment : comment ≠ "") :
    processRaw c st raw
      = (do
          let (parsers, p) ← ProcessLine c st.p (Trim raw ['\n'])
            [if HasPrefix (Trim raw ['\n']) "# _version" then "# _version"
             else if Contains (Trim raw ['\n']) "config-snippet" then "config-snippet"
             else if HasPrefix (Trim raw ['\n']) "# _md5hash" then "# _md5hash"
             else ""]
            st.previousLine comment st.parsers
          pure { parsers := parsers
                 previousLine :=
                   [if HasPrefix (Trim raw ['\n']) "# _version" then "# _version"
                    else if Contains (Trim raw ['\n']) "config-snippet" then "config-snippet"
                    else if HasPrefix (Trim raw ['\n']) "# _md5hash" then "# _md5hash"
                    else ""]
                 p := p }) := by
  unfold processRaw
  simp only [hline, if_false, htok, List.length_nil, ne_eq, hcomment, not_false_eq_true,
    and_self, if_true]
  by_cases h1 : HasPrefix (Trim raw ['\n']) "# _version" = true
  · simp [h1]
  · by_cases h2 : Contains (Trim raw ['\n']) "config-snippet" = true
    · simp [h1, h2]
    · by_cases h3 : HasPrefix (Trim raw ['\n']) "# _md5hash" = true
      · simp [h1, h2, h3]
      · simp [h1, h2, h3]

/-- C14 amended, at a concrete input: the content-hash line of the test
configuration is handed on as `# _md5hash`. -/
theorem comment_line_synthetic_field_witness :
    observeParts (Process demo (demoParser false)
        "# _md5hash=4cadde7159beea87ba17ba043201d3ad\n")
      = .ok [(0, ["# _md5hash"])] ∧
    processRaw demo
        { parsers := demoCursor false, previousLine := [], p := demoP false }
        "# _md5hash=4cadde7159beea87ba17ba043201d3ad\n"
      = (do
          let (parsers, p) ← ProcessLine demo (demoP false)
            (Trim "# _md5hash=4cadde7159beea87ba17ba043201d3ad\n" ['\n'])
            [if HasPrefix (Trim "# _md5hash=4cadde7159beea87ba17ba043201d3ad\n" ['\n'])
                "# _version" then "# _version"
             else if Contains (Trim "# _md5hash=4cadde7159beea87ba17ba043201d3ad\n" ['\n'])
                "config-snippet" then "config-snippet"
             else if HasPrefix (Trim "# _md5hash=4cadde7159beea87ba17ba043201d3ad\n" ['\n'])
                "# _md5hash" then "# _md5hash"
             else ""]
            [] "_md5hash=4cadde7159beea87ba17ba043201d3ad" (demoCursor false)
          pure { parsers := parsers
                 previousLine :=
                   [if HasPrefix (Trim "# _md5hash=4cadde7159beea87ba17ba043201d3ad\n" ['\n'])
                      "# _version" then "# _version"
                    else if Contains
                      (Trim "# _md5hash=4cadde7159beea87ba17ba043201d3ad\n" ['\n'])
                      "config-snippet" then "config-snippet"
                    else if HasPrefix
                      (Trim "# _md5hash=4cadde7159beea87ba17ba043201d3ad\n" ['\n'])
                      "# _md5hash" then "# _md5hash"
                    else ""]
                 p := p }) :=
  ⟨rfl,
    comment_line_synthetic_field demo
      { parsers := demoCursor false, previousLine := [], p := demoP false }
      "# _md5hash=4cadde7159beea87ba17ba043201d3ad\n"
      "_md5hash=4cadde7159beea87ba17ba043201d3ad" (by decide) rfl (by decide)⟩

/-- C15, as stated, fails for a whitespace-only line. At the start of input
(section state empty) an empty line moves the cursor to the state `#`, but a
line of three spaces leaves the state empty. -/
theorem whitespace_line_keeps_empty_state :
    observe (Process demo (demoParser false) "\n")
      = .ok ("#", none, none, some 0, false, [],
          [(none, none), (none, none), (none, none)]) ∧
    observe (Process demo (demoParser false) "   \n")
      = .ok ("", none, none, some 0, false, [],
          [(none, none), (none, none), (none, none)]) :=
  ⟨rfl, rfl⟩

/-- C15, amended: an empty line moves the cursor to the state `#` when the
section state is empty and otherwise changes nothing; a non-empty line for
which the tokenizer returns no field and no comment (a whitespace-only line)
changes nothing, whatever the state. In both cases the parser is untouched, so
no hook is invoked. -/
theorem blank_line_step (c : Collaborators) (st : LoopState) (raw : String) :
    (Trim raw ['\n'] = "" →
      processRaw c st raw
        = .ok (if st.parsers.State = ""
            then { st with parsers := { st.parsers with State := "#" } } else st)) ∧
    (Trim raw ['\n'] ≠ "" →
      c.StringSplitWithCommentIgnoreEmpty (Trim raw ['\n']) = ([], "") →
      processRaw c st raw = .ok st) := by
  constructor
  · intro h
    unfold processRaw
    simp only [h, if_true]
    split <;> rfl
  · intro h htok
    unfold processRaw
    simp [h, htok, pure, Except.pure]

/-- C15 amended, at concrete inputs: an empty line and a line of three spaces
at the start of input. -/
theorem blank_line_step_witness :
    processRaw demo { parsers := demoCursor false, previousLine := [], p := demoP false } "\n"
      = .ok (if (demoCursor false).State = ""
          then { parsers := { demoCursor false with State := "#" }, previousLine := [],
                 p := demoP false }
          else { parsers := demoCursor false, previousLine := [], p := demoP false }) ∧
    processRaw demo { parsers := demoCursor false, previousLine := [], p := demoP false }
        "   \n"
      = .ok { parsers := demoCursor false, previousLine := [], p := demoP false } :=
  ⟨(blank_line_step demo
      { parsers := demoCursor false, previousLine := [], p := demoP false } "\n").1 (by decide),
    (blank_line_step demo
      { parsers := demoCursor false, previousLine := [], p := demoP false } "   \n").2
      (by decide) rfl⟩

/-- Bytes after the last newline are not returned as a line. -/
theorem ReadString_no_newline (r : List Char) (hr : '\n' ∉ r) :
    ∀ cur, ReadString cur r = [] := by
  induction r with
  | nil =>
    intro cur
    rfl
  | cons ch rest ih =>
    intro cur
    have h1 : ch ≠ '\n' := fun e => hr (by rw [e]; exact List.mem_cons_self _ _)
    have h2 : '\n' ∉ rest := fun e => hr (List.mem_cons_of_mem _ e)
    simp only [ReadString, h1, if_false]
    exact ih h2 _

/-- Appending bytes without a newline does not change the lines read. -/
theorem ReadString_append (t r : List Char) (hr : '\n' ∉ r) :
    ∀ cur, ReadString cur (t ++ r) = ReadString cur t := by
  induction t with
  | nil =>
    intro cur
    simp only [List.nil_append, ReadString]
    exact ReadString_no_newline r hr cur
  | cons ch rest ih =>
    intro cur
    simp only [List.cons_append, ReadString]
    split
    · exact congrArg _ (ih [])
    · exact ih _

/-- C20: `Process` dispatches newline-terminated lines only. For every text `t`
(in particular one that is empty or ends in a newline) and every `r` without a
newline, `Process` on `t ++ r` gives the same result, final cursor and parser
included, as `Process` on `t`: the bytes of `r`, which follow the last newline,
are never handed to `ProcessLine`. -/
theorem unterminated_last_line_ignored (c : Collaborators) (p : configParser) (t r : String)
    (hr : '\n' ∉ r.data) :
    Process c p (t ++ r) = Process c p t := by
  unfold Process
  simp only [String.data_append]
  rw [ReadString_append t.data r.data hr]

/-- C20 at a concrete input: `  mode http` without a newline after `global`. -/
theorem unterminated_last_line_ignored_witness :
    observe (Process demo (demoParser false) "global\n  mode http")
      = .ok ("global", none, none, some 2, false, [(2, "global")],
          [(none, none), (none, none), (none, none)]) ∧
    Process demo (demoParser false) ("global\n" ++ "  mode http")
      = Process demo (demoParser false) "global\n" :=
  ⟨rfl,
    unterminated_last_line_ignored demo (demoParser false) "global\n" "  mode http"
      (by decide)⟩

/-! ## The action parsers -/

/-- The loop of `String.intercalate` with an accumulator that starts with `x`. -/
theorem intercalate_go_append (s : String) :
    ∀ (l : List String) (x y : String),
      String.intercalate.go (x ++ y) s l = x ++ String.intercalate.go y s l := by
  intro l
  induction l with
  | nil =>
    intro x y
    rfl
  | cons a as ih =>
    intro x y
    simp only [String.intercalate.go]
    rw [String.append_assoc, String.append_assoc, ih, String.append_assoc]

/-- Joining at least two elements: the first, the separator, the rest joined. -/
theorem Join_cons_cons (x y : String) (l : List String) (sep : String) :
    Join (x :: y :: l) sep = x ++ sep ++ Join (y :: l) sep := by
  simp only [Join, String.intercalate, String.intercalate.go]
  rw [intercalate_go_append]

/-- Joining one element gives the element. -/
theorem Join_singleton (x sep : String) : Join [x] sep = x := rfl

/-- Command and condition together are the tokens that were split. -/
theorem SplitRequest_append (l : List String) :
    (SplitRequest l).1 ++ (SplitRequest l).2 = l := by
  induction l with
  | nil => rfl
  | cons x xs ih =>
    unfold SplitRequest
    split
    · rfl
    · simp [ih]

/-- A non-empty condition starts with a condition keyword. -/
theorem SplitRequest_keyword (l : List String) (k : String) (rest : List String)
    (h : (SplitRequest l).2 = k :: rest) : k = "if" ∨ k = "unless" := by
  induction l with
  | nil => simp [SplitRequest] at h
  | cons x xs ih =>
    unfold SplitRequest at h
    split at h
    · rename_i hx
      simp only [List.cons.injEq] at h
      rw [← h.1]
      exact hx
    · exact ih h

/-- What `ReplaceValue.Parse` stores when it accepts: the first three command
tokens, the condition when it has at least two tokens, and a non-empty
comment. -/
theorem ReplaceValue_Parse_ok (f : ReplaceValue) (parts : List String)
    (parserType : ParserType) (comment a b c : String) (rest cond : List String)
    (hlen : parts.length ≥ 5)
    (hsplit : SplitRequest (parts.drop 2) = (a :: b :: c :: rest, cond)) :
    ReplaceValue.Parse f parts parserType comment
      = ({ Name := a, MatchRegex := b, ReplaceFmt := c
           Cond := if cond.length > 1 then cond.getD 0 "" else f.Cond
           CondTest := if cond.length > 1 then Join (cond.drop 1) " " else f.CondTest
           Comment := if comment ≠ "" then comment else f.Comment }, none) := by
  unfold ReplaceValue.Parse
  simp only [hlen, if_true, hsplit]
  have h3 : ¬ (a :: b :: c :: rest).length < 3 := by simp
  simp only [h3, if_false, List.getD_cons_zero, List.getD_cons_succ]
  by_cases hc : comment = "" <;> by_cases hl : cond.length > 1 <;> simp [hc, hl]

/-- C16, as stated, fails. `ReplaceValue.Parse` accepts a line with more than
three command tokens and a line whose condition is the bare keyword; `String()`
then lacks the surplus tokens, respectively the keyword. -/
theorem replace_value_drops_tokens :
    (ReplaceValue.Parse freshReplaceValue
      ["http-request", "replace-value", "a", "b", "c", "d", "e"] ParserType.HTTP "").2 = none ∧
    (ReplaceValue.Parse freshReplaceValue
      ["http-request", "replace-value", "a", "b", "c", "d", "e"] ParserType.HTTP "").1.String
      = "replace-value a b c" ∧
    Join (["http-request", "replace-value", "a", "b", "c", "d", "e"].drop 1) " "
      = "replace-value a b c d e" ∧
    (ReplaceValue.Parse freshReplaceValue
      ["http-request", "replace-value", "a", "b", "c", "if"] ParserType.HTTP "").2 = none ∧
    (ReplaceValue.Parse freshReplaceValue
      ["http-request", "replace-value", "a", "b", "c", "if"] ParserType.HTTP "").1.String
      = "replace-value a b c" :=
  ⟨rfl, rfl, rfl, rfl, rfl⟩

/-- C16, amended: when the second token is `replace-value`, the command part of
`parts[2:]` is exactly the three tokens name, match-regex and replace-fmt, and
the condition part is empty or has at least two tokens, `Parse` on a fresh
instance succeeds and `String()` is `parts[1:]` joined by single spaces. -/
theorem replace_value_round_trip (parts : List String) (parserType : ParserType)
    (comment a b c : String) (cond : List String)
    (hkw : parts[1]? = some "replace-value")
    (hsplit : SplitRequest (parts.drop 2) = ([a, b, c], cond))
    (hcond : cond.length ≠ 1) :
    (ReplaceValue.Parse freshReplaceValue parts parserType comment).2 = none ∧
    (ReplaceValue.Parse freshReplaceValue parts parserType comment).1.String
      = Join (parts.drop 1) " " := by
  have happ := SplitRequest_append (parts.drop 2)
  rw [hsplit] at happ
  simp only at happ
  obtain ⟨p0, rest, rfl⟩ : ∃ p0 rest, parts = p0 :: "replace-value" :: rest := by
    match parts, hkw with
    | p0 :: p1 :: rest, h =>
      simp only [List.getElem?_cons_succ, List.getElem?_cons_zero, Option.some.injEq] at h
      exact ⟨p0, rest, by rw [h]⟩
  simp only [List.drop_succ_cons, List.drop_zero] at happ hsplit ⊢
  subst happ
  have hlen : (p0 :: "replace-value" :: ([a, b, c] ++ cond)).length ≥ 5 := by
    simp
  rw [ReplaceValue_Parse_ok freshReplaceValue _ parserType comment a b c [] cond hlen
    (by simpa using hsplit)]
  refine ⟨rfl, ?_⟩
  cases cond with
  | nil =>
    simp only [ReplaceValue.String, freshReplaceValue, List.length_nil, gt_iff_lt,
      Nat.not_lt_zero, if_false, ne_eq, not_true_eq_false, List.append_nil, List.drop_succ_cons,
      List.drop_zero, Join_cons_cons, Join_singleton, String.append_assoc,
      String.append_empty]
    have e : "replace-value " = "replace-value" ++ " " := by decide
    rw [e, String.append_assoc]
  | cons k cond' =>
    cases cond' with
    | nil => simp at hcond
    | cons t ts =>
      have hk : k = "if" ∨ k = "unless" :=
        SplitRequest_keyword ([a, b, c] ++ k :: t :: ts) k (t :: ts) (by rw [hsplit])
      have hkne : k ≠ "" := by
        rcases hk with rfl | rfl <;> decide
      have hl : (k :: t :: ts).length > 1 := by simp
      simp only [ReplaceValue.String, hl, if_true, List.getD_cons_zero, ne_eq, hkne,
        not_false_eq_true, List.drop_succ_cons, List.drop_zero, List.cons_append,
        List.nil_append, Join_cons_cons, String.append_assoc]
      have e : "replace-value " = "replace-value" ++ " " := by decide
      rw [e, String.append_assoc]

/-- C16 amended, at a concrete input: a `replace-value` line with a
condition. -/
theorem replace_value_round_trip_witness :
    (ReplaceValue.Parse freshReplaceValue
      ["http-request", "replace-value", "X-Forwarded-For", "^192(.*)$", "172", "if", "a", "b"]
      ParserType.HTTP "").1.String
      = "replace-value X-Forwarded-For ^192(.*)$ 172 if a b" ∧
    (ReplaceValue.Parse freshReplaceValue
      ["http-request", "replace-value", "X-Forwarded-For", "^192(.*)$", "172", "if", "a", "b"]
      ParserType.HTTP "").2 = none ∧
    (ReplaceValue.Parse freshReplaceValue
      ["http-request", "replace-value", "X-Forwarded-For", "^192(.*)$", "172", "if", "a", "b"]
      ParserType.HTTP "").1.String
      = Join (["http-request", "replace-value", "X-Forwarded-For", "^192(.*)$", "172", "if",
          "a", "b"].drop 1) " " :=
  ⟨rfl,
    replace_value_round_trip
      ["http-request", "replace-value", "X-Forwarded-For", "^192(.*)$", "172", "if", "a", "b"]
      ParserType.HTTP "" "X-Forwarded-For" "^192(.*)$" "172" ["if", "a", "b"] rfl rfl
      (by decide)⟩

/-- C17: the code loses the comment. On a fresh `ExpectProxy` the accepted line
`tcp-request connection expect-proxy layer4` with the trailing comment `c`
leaves `GetComment` empty: line 33 tests `f.Comment`, which is empty on a
fresh instance, where the sibling parsers test `comment`. -/
theorem expect_proxy_comment_lost :
    ExpectProxy.Parse freshExpectProxy
        ["tcp-request", "connection", "expect-proxy", "layer4"] ParserType.TCP "c"
      = .ok ({ Cond := "", CondTest := "", Comment := "" }, none) ∧
    (match ExpectProxy.Parse freshExpectProxy
        ["tcp-request", "connection", "expect-proxy", "layer4"] ParserType.TCP "c" with
      | .ok (f, _) => f.GetComment = ""
      | .error _ => False) ∧
    (ReplaceValue.Parse freshReplaceValue
      ["http-request", "replace-value", "a", "b", "c"] ParserType.HTTP "c").1.GetComment
      = "c" :=
  ⟨rfl, rfl, rfl⟩

/-- C18: the code fails at run time on short token lists. `ExpectProxy.Parse`
slices `parts[2:]` without a length test, so a list of one token, or of none,
panics; two tokens are enough for it to return. -/
theorem expect_proxy_short_list_panics :
    ExpectProxy.Parse freshExpectProxy ["expect-proxy"] ParserType.TCP ""
      = .error Panic.sliceBoundsOutOfRange ∧
    ExpectProxy.Parse freshExpectProxy [] ParserType.TCP ""
      = .error Panic.sliceBoundsOutOfRange ∧
    ExpectProxy.Parse freshExpectProxy ["tcp-request", "connection"] ParserType.TCP ""
      = .ok (freshExpectProxy, none) :=
  ⟨rfl, rfl, rfl⟩

/-- C19, as stated, fails. With an expression parser that accepts every
non-empty command, `SetDstPort.Parse` succeeds on the HTTP line whose condition
keyword follows the directive keyword directly, and on the three-token TCP
line, neither of which carries an expression token; the expression stays the
zero value. -/
theorem set_dst_port_accepts_missing_expression :
    (SetDstPort.Parse (fun l => some l) (freshSetDstPort [])
      ["http-request", "set-dst-port", "if", "x"] ParserType.HTTP "").2 = none ∧
    (SetDstPort.Parse (fun l => some l) (freshSetDstPort [])
      ["http-request", "set-dst-port", "if", "x"] ParserType.HTTP "").1.Expr = [] ∧
    (SetDstPort.Parse (fun l => some l) (freshSetDstPort [])
      ["tcp-request", "connection", "set-dst-port"] ParserType.TCP "").2 = none ∧
    (SetDstPort.Parse (fun l => some l) (freshSetDstPort [])
      ["tcp-request", "connection", "set-dst-port"] ParserType.TCP "").1.Expr = [] :=
  ⟨rfl, rfl, rfl, rfl⟩

/-- C19, amended: `SetDstPort.Parse` returns the `not enough params` failure
exactly when the line has fewer than three tokens, or the command part (the
tokens of `parts[2:]` in HTTP mode, of `parts[3:]` in TCP mode, before the
condition keyword) is non-empty and the expression parser rejects it; in every
other case it succeeds. So whenever an expression token is present, success
means the expression was parsed; a line of three or more tokens with an empty
command part is accepted without an expression. -/
theorem set_dst_port_failure {Expression : Type} (exprParse : List String → Option Expression)
    (f : SetDstPort Expression) (parts : List String) (parserType : ParserType)
    (comment : String) :
    ((SetDstPort.Parse exprParse f parts parserType comment).2
        = some (GoError.Errorf "not enough params") ↔
      parts.length < 3 ∨
        ((SplitRequest (match parserType with
            | ParserType.HTTP => parts.drop 2
            | ParserType.TCP => parts.drop 3
            | ParserType.other => [])).1 ≠ [] ∧
          exprParse (SplitRequest (match parserType with
            | ParserType.HTTP => parts.drop 2
            | ParserType.TCP => parts.drop 3
            | ParserType.other => [])).1 = none)) ∧
    ((SetDstPort.Parse exprParse f parts parserType comment).2 = none ∨
      (SetDstPort.Parse exprParse f parts parserType comment).2
        = some (GoError.Errorf "not enough params")) := by
  unfold SetDstPort.Parse
  by_cases hlen : parts.length < 3
  · simp [hlen]
  · simp only [hlen, if_false, false_or]
    generalize (SplitRequest (match parserType with
        | ParserType.HTTP => parts.drop 2
        | ParserType.TCP => parts.drop 3
        | ParserType.other => [])) = sr
    obtain ⟨command, condition⟩ := sr
    cases command with
    | nil => simp
    | cons x xs =>
      cases he : exprParse (x :: xs) with
      | none => simp [he]
      | some expr => simp [he]

end ConfigParser
